import Mathlib

/-!
# langchaingo: token splitter and PDF loader

A shallow embedding of `textsplitter/token_splitter.go` and
`documentloaders/pdf.go`, followed by theorems about the embedded code.

Conventions of the embedding:

* Go `int` is a 64-bit two's complement integer.  Values are carried as `Int`
  and every `+` / `-` of the source is followed by `wrapInt`.
* A Go slice value that may be `nil` is an `Option (List α)`; `none` is `nil`.
* A run of Go code either returns, panics, or is cut off when the fuel of the
  model is used up (`Outcome`).  The only loop that can run forever is the
  windowing loop of `splitText`.
* External libraries (the tiktoken tokenizer, the pdf decoder, `io.Reader`)
  are parameters of the embedded functions.
* Fields named `windows`, `encoded`, `passwords` are ghost logs of the calls
  the code makes; they do not influence control flow.
-/

/-! ## Part 1: definitions -/

namespace textsplitter

/-- Smallest value of a Go `int` (64 bit). -/
def minInt : Int := -(2 ^ 63)

/-- Largest value of a Go `int` (64 bit). -/
def maxInt : Int := 2 ^ 63 - 1

/-- Two's complement wrap-around of Go `int` arithmetic. -/
def wrapInt (x : Int) : Int := (x + 2 ^ 63) % 2 ^ 64 - 2 ^ 63

/-- A value is representable as a Go `int`. -/
def IsInt (x : Int) : Prop := minInt ≤ x ∧ x ≤ maxInt

instance (x : Int) : Decidable (IsInt x) := by
  unfold IsInt; exact inferInstance

/-- Result of running Go code in the model. -/
inductive Outcome (α : Type) where
  /-- The function returned normally. -/
  | ret (a : α)
  /-- A run-time panic (here: slice bounds out of range). -/
  | panic
  /-- The loop was still running when the fuel of the model ran out. -/
  | outOfFuel
  deriving DecidableEq, Repr

/-- A Go slice value; `none` is the `nil` slice. -/
abbrev Slice (α : Type) := Option (List α)

/-- Go `append(s, x)`: the result is never `nil`. -/
def Slice.append {α : Type} : Slice α → α → Slice α
  | none, x => some [x]
  | some l, x => some (l ++ [x])

/-- Go `len(s)`. -/
def Slice.len {α : Type} : Slice α → Nat
  | none => 0
  | some l => l.length

/-- The slice expression `xs[lo:hi]` on a slice whose capacity equals its
length: it panics (`none`) unless `0 ≤ lo ≤ hi ≤ len(xs)`.  In `splitText`
the upper index never exceeds `len(inputIds)`, so the capacity of the slice
returned by the tokenizer does not matter. -/
def sliceExpr {α : Type} (xs : List α) (lo hi : Int) : Option (List α) :=
  if 0 ≤ lo ∧ lo ≤ hi ∧ hi ≤ (xs.length : Int) then
    some ((xs.take hi.toNat).drop lo.toNat)
  else
    none

/-- The tokenizer handle `*tiktoken.Tiktoken` (external library): the two
methods that `splitText` calls. -/
structure Tiktoken where
  /-- The method `Encode(text, allowedSpecial, disallowedSpecial)`, for the
  calls that return (the library panics on a disallowed special token). -/
  Encode : String → List String → List String → List Int
  /-- The method `Decode(ids)`. -/
  Decode : List Int → String

/-- The two resolver entry points of package tiktoken (external library).
Each returns either a tokenizer or a non-nil error. -/
structure TiktokenLib where
  /-- The function `tiktoken.EncodingForModel`. -/
  EncodingForModel : String → Except String Tiktoken
  /-- The function `tiktoken.GetEncoding`. -/
  GetEncoding : String → Except String Tiktoken

/-- The struct `TokenSplitter`. -/
structure TokenSplitter where
  ChunkSize : Int
  ChunkOverlap : Int
  ModelName : String
  EncodingName : String
  AllowedSpecial : List String
  DisallowedSpecial : List String

def _defaultTokenModelName : String := "gpt-3.5-turbo"

def _defaultTokenEncoding : String := "cl100k_base"

/-- The constructor `NewTokenSplitter`. -/
def NewTokenSplitter : TokenSplitter :=
  { ChunkSize := 512
    ChunkOverlap := 100
    ModelName := _defaultTokenModelName
    EncodingName := _defaultTokenEncoding
    AllowedSpecial := []
    DisallowedSpecial := ["all"] }

/-- Ghost record of one iteration of the windowing loop: the two indices of
the slice expression `inputIds[startIdx:curIdx]` and the ids handed to
`tk.Decode`. -/
structure Window where
  startIdx : Int
  curIdx : Int
  chunkIds : List Int
  deriving DecidableEq, Repr

/-- The local variables of `splitText` that the loop updates, with the ghost
log of its iterations. -/
structure LoopState where
  splits : Slice String
  startIdx : Int
  curIdx : Int
  windows : List Window
  deriving DecidableEq, Repr

/-- The loop `for startIdx < len(inputIds) { ... }` of `splitText`; `fuel`
bounds the number of iterations the model runs. -/
def splitLoop (s : TokenSplitter) (tk : Tiktoken) (inputIds : List Int) :
    Nat → LoopState → Outcome LoopState
  | 0, st =>
    if st.startIdx < (inputIds.length : Int) then .outOfFuel else .ret st
  | fuel + 1, st =>
    if st.startIdx < (inputIds.length : Int) then
      match sliceExpr inputIds st.startIdx st.curIdx with
      | none => .panic
      | some chunkIds =>
        let splits := st.splits.append (tk.Decode chunkIds)
        let startIdx := wrapInt (st.startIdx + wrapInt (s.ChunkSize - s.ChunkOverlap))
        let curIdx := wrapInt (startIdx + s.ChunkSize)
        let curIdx := if curIdx > (inputIds.length : Int) then (inputIds.length : Int) else curIdx
        splitLoop s tk inputIds fuel
          { splits := splits
            startIdx := startIdx
            curIdx := curIdx
            windows := st.windows ++ [⟨st.startIdx, st.curIdx, chunkIds⟩] }
    else
      .ret st

/-- What a run of `splitText` returns, with the ghost logs of its calls to
`tk.Encode` (the texts) and of its loop iterations. -/
structure SplitRun where
  splits : Slice String
  encoded : List String
  windows : List Window
  deriving DecidableEq, Repr

/-- The method `TokenSplitter.splitText`. -/
def splitText (s : TokenSplitter) (text : String) (tk : Tiktoken) (fuel : Nat) :
    Outcome SplitRun :=
  let splits : Slice String := some []
  let inputIds := tk.Encode text s.AllowedSpecial s.DisallowedSpecial
  let startIdx : Int := 0
  let curIdx : Int := (inputIds.length : Int)
  let curIdx :=
    if wrapInt (startIdx + s.ChunkSize) < curIdx then wrapInt (startIdx + s.ChunkSize) else curIdx
  match splitLoop s tk inputIds fuel ⟨splits, startIdx, curIdx, []⟩ with
  | .ret st => .ret ⟨st.splits, [text], st.windows⟩
  | .panic => .panic
  | .outOfFuel => .outOfFuel

/-- The pair `([]string, error)` returned by `SplitText`, with the ghost logs
of the run. -/
structure SplitTextResult where
  texts : Slice String
  err : Option String
  encoded : List String
  windows : List Window
  deriving DecidableEq, Repr

/-- The method `TokenSplitter.SplitText`. -/
def SplitText (lib : TiktokenLib) (s : TokenSplitter) (text : String) (fuel : Nat) :
    Outcome SplitTextResult :=
  let resolved : Except String Tiktoken :=
    if s.ModelName ≠ "" then
      lib.EncodingForModel s.ModelName
    else if s.EncodingName ≠ "" then
      lib.GetEncoding s.EncodingName
    else
      .error "must have either model name or encoding name"
  match resolved with
  | .error err => .ret ⟨none, some ("tiktoken.GetEncoding: " ++ err), [], []⟩
  | .ok tk =>
    match splitText s text tk fuel with
    | .ret run => .ret ⟨run.splits, none, run.encoded, run.windows⟩
    | .panic => .panic
    | .outOfFuel => .outOfFuel

/-- The tokenizer resolution at the head of `SplitText` (the `if` / `else if`
/ `else` over `ModelName` and `EncodingName`), named for use in statements. -/
def resolveTokenizer (lib : TiktokenLib) (s : TokenSplitter) : Except String Tiktoken :=
  if s.ModelName ≠ "" then
    lib.EncodingForModel s.ModelName
  else if s.EncodingName ≠ "" then
    lib.GetEncoding s.EncodingName
  else
    .error "must have either model name or encoding name"

/-! ### Reference values used in the statements -/

/-- A valid configuration: `0 <= ChunkOverlap < ChunkSize`. -/
def Valid (s : TokenSplitter) : Prop := 0 ≤ s.ChunkOverlap ∧ s.ChunkOverlap < s.ChunkSize

instance (s : TokenSplitter) : Decidable (Valid s) := by
  unfold Valid; exact inferInstance

/-- The index arithmetic of `splitText` on `n` tokens stays inside the Go
`int` range: `n + ChunkSize` does not exceed the largest `int`. -/
def Fits (s : TokenSplitter) (n : Nat) : Prop := (n : Int) + s.ChunkSize ≤ maxInt

instance (s : TokenSplitter) (n : Nat) : Decidable (Fits s n) := by
  unfold Fits; exact inferInstance

/-- A configuration whose windows are well formed and move forward:
`ChunkSize >= 0` and `ChunkSize - ChunkOverlap > 0` (the overlap may be
negative). -/
def Advancing (s : TokenSplitter) : Prop :=
  0 ≤ s.ChunkSize ∧ 0 < s.ChunkSize - s.ChunkOverlap

instance (s : TokenSplitter) : Decidable (Advancing s) := by
  unfold Advancing; exact inferInstance

/-- No sum `startIdx + ChunkSize` that the loop computes for a window
overflows: every window start `i * (ChunkSize - ChunkOverlap)` below `n`
stays, with `ChunkSize` added, within the largest `int`. -/
def NoOverflow (s : TokenSplitter) (n : Nat) : Prop :=
  ∀ i : Nat, (i : Int) * (s.ChunkSize - s.ChunkOverlap) < (n : Int) →
    (i : Int) * (s.ChunkSize - s.ChunkOverlap) + s.ChunkSize ≤ maxInt

/-- No sum `startIdx + (ChunkSize - ChunkOverlap)` that the loop computes
overflows: every window start below `n` stays, with the step added, within
the largest `int`. -/
def StepNoOverflow (s : TokenSplitter) (n : Nat) : Prop :=
  ∀ i : Nat, (i : Int) * (s.ChunkSize - s.ChunkOverlap) < (n : Int) →
    (i : Int) * (s.ChunkSize - s.ChunkOverlap) + (s.ChunkSize - s.ChunkOverlap) ≤ maxInt

/-- The step `ChunkSize - ChunkOverlap` of a valid configuration, as a
natural number. -/
def stepOf (s : TokenSplitter) : Nat := (s.ChunkSize - s.ChunkOverlap).toNat

/-- Number of window starts `0, step, 2*step, ...` below `n`. -/
def windowCount (s : TokenSplitter) (n : Nat) : Nat := (n + stepOf s - 1) / stepOf s

/-- The window with index `i`: tokens from `i * step` up to
`min (i * step + ChunkSize) N`. -/
def windowAt (s : TokenSplitter) (inputIds : List Int) (i : Nat) : Window :=
  let lo : Int := (i : Int) * (stepOf s : Int)
  let hi : Int := min (lo + s.ChunkSize) (inputIds.length : Int)
  ⟨lo, hi, (inputIds.take hi.toNat).drop lo.toNat⟩

/-- All windows of a token sequence, in order. -/
def allWindows (s : TokenSplitter) (inputIds : List Int) : List Window :=
  (List.range (windowCount s inputIds.length)).map (windowAt s inputIds)

/-- Ceiling of `a / b` for a positive divisor `b`. -/
def ceilDiv (a b : Int) : Int := (a + b - 1) / b

/-- A tokenizer for examples: one token per character (its code point). -/
def charTokenizer : Tiktoken :=
  { Encode := fun text _ _ => text.data.map (fun c => (c.toNat : Int))
    Decode := fun ids => String.mk (ids.map (fun i => Char.ofNat i.toNat)) }

/-- A tokenizer for examples: every text has the `n` tokens `0 .. n - 1`, and
a window decodes to its token count. -/
def countTokenizer (n : Nat) : Tiktoken :=
  { Encode := fun _ _ _ => List.map Int.ofNat (List.range n)
    Decode := fun ids => toString ids.length }

/-- A tokenizer library for examples: every name resolves to `charTokenizer`. -/
def charLib : TiktokenLib :=
  { EncodingForModel := fun _ => .ok charTokenizer
    GetEncoding := fun _ => .ok charTokenizer }

end textsplitter

namespace documentloaders

open textsplitter (Slice wrapInt)

/-- State of an `io.Reader` as seen through `io.ReadAll`: the results that
the coming calls of `io.ReadAll` on it produce, in order.  A plain stream
holding bytes `d` is `[.ok d]`; once the list is used up the reader is at
end of file and `io.ReadAll` yields no bytes and a nil error. -/
structure ReaderState where
  results : List (Except String (List UInt8))

/-- The call `io.ReadAll(r)`: the result, and the state the reader is left in. -/
def ioReadAll (r : ReaderState) : Except String (List UInt8) × ReaderState :=
  match r.results with
  | [] => (.ok [], r)
  | x :: rest => (x, ⟨rest⟩)

/-- The readers that exist outside the loader.  Field `r` of `PDF` is an
interface value: copying a `PDF` copies the reference, not the reader. -/
abbrev Heap := Nat → ReaderState

/-- The struct `PDF`. -/
structure PDF where
  /-- The `io.Reader`, as the address of the reader in the heap. -/
  r : Nat
  s : Int
  password : String
  deriving DecidableEq, Repr

/-- The option `WithPassword(password)`, applied through a pointer. -/
def WithPassword (password : String) (pdf : PDF) : PDF :=
  { pdf with password := password }

/-- The constructor `NewPDF(r, size, opts...)`. -/
def NewPDF (r : Nat) (size : Int) (opts : List (PDF → PDF)) : PDF :=
  opts.foldl (fun _pdf opt => opt _pdf) { r := r, s := size, password := "" }

/-- The method `(p *PDF) getPassword()`: the returned string and the struct
that the pointer refers to after the call. -/
def PDF.getPassword (p : PDF) : String × PDF :=
  let pass := p.password
  (pass, { p with password := "" })

/-- A font handle `pdf.Font` of the decoder (external library). -/
structure Font where
  handle : Nat
  deriving DecidableEq, Repr

/-- A page handle `pdf.Page` of the decoder (external library). -/
structure Page where
  /-- The method `Fonts()`. -/
  Fonts : List String
  /-- The method `Font(name)`. -/
  Font : String → documentloaders.Font
  /-- The method `GetPlainText(fonts)`; the map is given as a lookup function. -/
  GetPlainText : (String → Option documentloaders.Font) → Except String String

/-- An open document `*pdf.Reader` of the decoder (external library). -/
structure PdfReader where
  /-- The method `NumPage()`. -/
  NumPage : Int
  /-- The method `Page(i)`. -/
  Page : Int → Page

/-- The two entry points of the decoder (external library).  Both receive the
buffered bytes that `newBufferedReaderAt` read and the size.
`NewReaderEncrypted` also receives the password callback: a step function
on a state of the caller that the decoder may run any number of times. -/
structure PdfLib where
  /-- The function `pdf.NewReader(readerAt, size)`. -/
  NewReader : List UInt8 → Int → Except String PdfReader
  /-- The function `pdf.NewReaderEncrypted(readerAt, size, pw)`. -/
  NewReaderEncrypted : {σ : Type} → List UInt8 → Int → (σ → String × σ) → σ →
    Except String PdfReader × σ

/-- Modelled from the spec: the record `schema.Document` (the TextUnit of the
spec), whose declaration is not among the source files: the content string
and the metadata mapping, here the entries of the map literal with their
integer values. -/
structure Document where
  PageContent : String
  Metadata : List (String × Int)
  deriving DecidableEq, Repr

/-- What `Load` returns, the pair `([]schema.Document, error)`, with the ghost
log of the strings that `p.getPassword` returned to the decoder. -/
structure LoadResult where
  docs : Slice Document
  err : Option String
  passwords : List String
  deriving DecidableEq, Repr

/-- The inner loop `for _, name := range p.Fonts()` of `Load`: a font is
resolved and stored only if the map has no entry for its name. -/
def addFonts (page : Page) (fonts : String → Option Font) : String → Option Font :=
  page.Fonts.foldl
    (fun fonts name =>
      match fonts name with
      | some _ => fonts
      | none => fun n => if n = name then some (page.Font name) else fonts n)
    fonts

/-- The loop `for i := 1; i < numPages+1; i++` of `Load`, from page `i` on,
with `remaining` iterations left before `i` reaches the bound. -/
def loadPages (reader : PdfReader) (numPages : Int) :
    Nat → Int → (String → Option Font) → List Document → Slice Document × Option String
  | 0, _, _, docs => (some docs, none)
  | remaining + 1, i, fonts, docs =>
    let p := reader.Page i
    let fonts := addFonts p fonts
    match p.GetPlainText fonts with
    | .error err => (none, some err)
    | .ok text =>
      loadPages reader numPages remaining (wrapInt (i + 1)) fonts
        (docs ++ [{ PageContent := text, Metadata := [("page", i), ("total_pages", numPages)] }])

/-- The part of `Load` after the reader is open: `numPages := reader.NumPage()`
and the page loop, which runs while `i < numPages+1`, that is
`numPages+1 - 1` times unless a page fails. -/
def loadReader (reader : PdfReader) : Slice Document × Option String :=
  let numPages := reader.NumPage
  loadPages reader numPages (wrapInt (numPages + 1) - 1).toNat 1 (fun _ => none) []

/-- The body of the method `(p PDF) Load`, run on the copy `p` of the loader
that a value receiver is: the result, the copy as the body leaves it, and
the heap. -/
def PDF.LoadBody (lib : PdfLib) (p : PDF) (heap : Heap) : LoadResult × PDF × Heap :=
  match ioReadAll (heap p.r) with
  | (.error err, rs) => (⟨none, some err, []⟩, p, Function.update heap p.r rs)
  | (.ok data, rs) =>
    let heap := Function.update heap p.r rs
    if p.password ≠ "" then
      match lib.NewReaderEncrypted data p.s
          (fun (st : PDF × List String) =>
            let (pass, q) := st.1.getPassword
            (pass, (q, st.2 ++ [pass])))
          (p, []) with
      | (.error err, (p, log)) => (⟨none, some err, log⟩, p, heap)
      | (.ok reader, (p, log)) =>
        let (docs, err) := loadReader reader
        (⟨docs, err, log⟩, p, heap)
    else
      match lib.NewReader data p.s with
      | .error err => (⟨none, some err, []⟩, p, heap)
      | .ok reader =>
        let (docs, err) := loadReader reader
        (⟨docs, err, []⟩, p, heap)

/-- The method `(p PDF) Load`.  The receiver is passed by value, so the copy
that the body worked on is dropped when the method returns. -/
def PDF.Load (lib : PdfLib) (p : PDF) (heap : Heap) : LoadResult × Heap :=
  let (res, _, heap) := p.LoadBody lib heap
  (res, heap)

/-- Outcome of two calls in a row on one loader variable. -/
structure TwoLoads where
  first : LoadResult
  second : LoadResult
  /-- The loader variable after both calls. -/
  loader : PDF
  heap : Heap

/-- Two calls `l.Load(ctx)` in a row on one loader variable `l`.  Each call
copies `l` into its receiver; the variable itself is never assigned. -/
def loadTwice (lib : PdfLib) (l : PDF) (heap : Heap) : TwoLoads :=
  let (first, heap) := l.Load lib heap
  let (second, heap) := l.Load lib heap
  ⟨first, second, l, heap⟩

/-- The password callback that `Load` hands to the decoder: `p.getPassword`
on the copy of the loader, with the ghost log of the returned strings. -/
def passwordCallback (st : PDF × List String) : String × (PDF × List String) :=
  let (pass, q) := st.1.getPassword
  (pass, (q, st.2 ++ [pass]))

/-- The opening step of `Load` on the buffered bytes: `pdf.NewReaderEncrypted`
with the password callback when the password is set, `pdf.NewReader`
otherwise; named for use in statements. -/
def openReader (lib : PdfLib) (p : PDF) (data : List UInt8) : Except String PdfReader :=
  if p.password ≠ "" then
    (lib.NewReaderEncrypted data p.s passwordCallback (p, [])).1
  else
    lib.NewReader data p.s

/-- The font map of `Load` after the pages `1 .. k` went through the font
loop. -/
def fontsUpTo (reader : PdfReader) : Nat → (String → Option Font)
  | 0 => fun _ => none
  | k + 1 => addFonts (reader.Page ((k + 1 : Nat) : Int)) (fontsUpTo reader k)

/-- The error values that `ReadAt` returns: `io.EOF`, or an error made by
`fmt.Errorf` with the given message. -/
inductive ReadError where
  | EOF
  | errorf (msg : String)
  deriving DecidableEq, Repr

/-- The struct `bufferedReaderAt`. -/
structure bufferedReaderAt where
  data : List UInt8
  offset : Int
  deriving DecidableEq, Repr

/-- The constructor `newBufferedReaderAt(reader)`: the buffered reader or the
error of `io.ReadAll`, and the state the reader is left in. -/
def newBufferedReaderAt (reader : ReaderState) : Except String bufferedReaderAt × ReaderState :=
  match ioReadAll reader with
  | (.error err, rs) => (.error err, rs)
  | (.ok buf, rs) => (.ok { data := buf, offset := 0 }, rs)

/-- Go `copy(dst, src)` on slices that do not share memory: the number of
elements copied and the contents of `dst` afterwards. -/
def goCopy {α : Type} (dst src : List α) : Nat × List α :=
  let n := min dst.length src.length
  (n, src.take n ++ dst.drop n)

/-- What `ReadAt` returns and leaves behind: the pair `(n, err)`, the
contents of the destination `p` and of the buffer `data` after the call. -/
structure ReadAtResult where
  n : Int
  err : Option ReadError
  p : List UInt8
  data : List UInt8
  deriving DecidableEq, Repr

/-- The method `(b bufferedReaderAt) ReadAt(p, off)`, for a destination `p`
that does not share memory with `b.data`. -/
def bufferedReaderAt.ReadAt (b : bufferedReaderAt) (p : List UInt8) (off : Int) : ReadAtResult :=
  if off < 0 then
    ⟨0, some (.errorf "negative offset"), p, b.data⟩
  else if off ≥ (b.data.length : Int) then
    ⟨0, some .EOF, p, b.data⟩
  else
    let (n, p') := goCopy p (b.data.drop off.toNat)
    if (n : Int) < (p.length : Int) then
      ⟨n, some .EOF, p', b.data⟩
    else
      ⟨n, none, p', b.data⟩

/-- A decoder for examples.  An empty buffer is not a document.  Otherwise
the document is encrypted with the password "secret" and has one page with
the text "page one": the decoder asks the callback for a password up to two
times and gives up on an empty answer. -/
def demoLib : PdfLib :=
  { NewReader := fun data _ =>
      if data = [] then .error "not a PDF file" else .error "encrypted"
    NewReaderEncrypted := fun data _ pw st =>
      let demoReader : PdfReader :=
        { NumPage := 1
          Page := fun _ =>
            { Fonts := ["F1"], Font := fun _ => ⟨1⟩, GetPlainText := fun _ => .ok "page one" } }
      if data = [] then (.error "not a PDF file", st)
      else
        let (a, st) := pw st
        if a = "secret" then (.ok demoReader, st)
        else if a = "" then (.error "invalid password", st)
        else
          let (b, st) := pw st
          if b = "secret" then (.ok demoReader, st) else (.error "invalid password", st) }

/-- The open document that `demoLib` returns: one page with the text
"page one". -/
def demoReader : PdfReader :=
  { NumPage := 1
    Page := fun _ =>
      { Fonts := ["F1"], Font := fun _ => ⟨1⟩, GetPlainText := fun _ => .ok "page one" } }

/-- An open document for examples: three pages, of which page 2 cannot be
extracted. -/
def brokenReader : PdfReader :=
  { NumPage := 3
    Page := fun i =>
      { Fonts := []
        Font := fun _ => ⟨0⟩
        GetPlainText := fun _ => if i = 2 then .error "bad page" else .ok "text" } }

/-- A decoder for examples: every buffer opens as `brokenReader`. -/
def brokenLib : PdfLib :=
  { NewReader := fun _ _ => .ok brokenReader
    NewReaderEncrypted := fun _ _ _ st => (.ok brokenReader, st) }

/-- A heap for examples: reading the reader at address 0 fails. -/
def failingHeap : Heap := fun _ => ⟨[.error "read failed"]⟩

/-- A heap for examples: the reader at address 0 can be read in full twice
(a reader that rewinds at end of file); every other reader is empty. -/
def demoHeap : Heap := fun a =>
  if a = 0 then ⟨[.ok [37, 80, 68, 70], .ok [37, 80, 68, 70]]⟩ else ⟨[]⟩

/-- A heap for examples: the reader at address 0 is a plain stream of four
bytes; every other reader is empty. -/
def streamHeap : Heap := fun a =>
  if a = 0 then ⟨[.ok [37, 80, 68, 70]]⟩ else ⟨[]⟩

end documentloaders

/-! ## Part 2: theorems -/

namespace textsplitter

/-! ### Machine arithmetic -/

theorem wrapInt_of_isInt {x : Int} (h : IsInt x) : wrapInt x = x := by
  unfold IsInt minInt maxInt at h
  unfold wrapInt
  omega

/-! ### The windowing loop on a valid configuration -/

theorem stepOf_cast {s : TokenSplitter} (hv : Valid s) :
    ((stepOf s : Nat) : Int) = s.ChunkSize - s.ChunkOverlap := by
  unfold Valid at hv
  unfold stepOf
  omega

theorem stepOf_pos {s : TokenSplitter} (hv : Valid s) : 0 < stepOf s := by
  have := stepOf_cast hv
  unfold Valid at hv
  omega

theorem lt_windowCount_iff {s : TokenSplitter} (hv : Valid s) (n j : Nat) :
    j < windowCount s n ↔ j * stepOf s < n := by
  have hpos := stepOf_pos hv
  unfold windowCount
  rw [Nat.lt_iff_add_one_le, Nat.le_div_iff_mul_le hpos, Nat.add_mul, Nat.one_mul]
  omega

theorem splitLoop_valid {s : TokenSplitter} (tk : Tiktoken) (inputIds : List Int)
    (hv : Valid s) (hf : Fits s inputIds.length) :
    ∀ (fuel j : Nat) (st : LoopState) (l : List String),
      j ≤ windowCount s inputIds.length →
      windowCount s inputIds.length - j ≤ fuel →
      st.splits = some l →
      st.startIdx = (j : Int) * (stepOf s : Int) →
      (j * stepOf s < inputIds.length →
        st.curIdx = min ((j : Int) * (stepOf s : Int) + s.ChunkSize) (inputIds.length : Int)) →
      ∃ st', splitLoop s tk inputIds fuel st = .ret st' ∧
        st'.splits = some (l ++ (List.range' j (windowCount s inputIds.length - j)).map
          (fun i => tk.Decode (windowAt s inputIds i).chunkIds)) ∧
        st'.windows = st.windows ++
          (List.range' j (windowCount s inputIds.length - j)).map (windowAt s inputIds) := by
  have hpos := stepOf_pos hv
  have hcast := stepOf_cast hv
  intro fuel
  induction fuel with
  | zero =>
    intro j st l hj hfuel hsp hst _
    have hjk : j = windowCount s inputIds.length := by omega
    have hnot : ¬ j * stepOf s < inputIds.length := by
      rw [← lt_windowCount_iff hv]; omega
    have hnot' : ¬ st.startIdx < (inputIds.length : Int) := by
      rw [hst]; intro h; apply hnot; exact_mod_cast h
    refine ⟨st, ?_, ?_, ?_⟩
    · simp [splitLoop, hnot']
    · simp [hjk, hsp]
    · simp [hjk]
  | succ fuel ih =>
    intro j st l hj hfuel hsp hst hcur
    by_cases hlt : j * stepOf s < inputIds.length
    · have hjk : j < windowCount s inputIds.length := (lt_windowCount_iff hv _ _).2 hlt
      have hlt' : st.startIdx < (inputIds.length : Int) := by
        rw [hst]; exact_mod_cast hlt
      have hcur' := hcur hlt
      have hlo : (0 : Int) ≤ (j : Int) * (stepOf s : Int) := by positivity
      have hltI : (j : Int) * (stepOf s : Int) < (inputIds.length : Int) := by exact_mod_cast hlt
      have hsl : sliceExpr inputIds st.startIdx st.curIdx
          = some (windowAt s inputIds j).chunkIds := by
        unfold sliceExpr windowAt
        rw [hst, hcur']
        rw [if_pos]
        unfold Valid at hv
        refine ⟨hlo, ?_, ?_⟩
        · rw [le_min_iff]; constructor <;> omega
        · exact min_le_right _ _
      unfold Fits maxInt at hf
      have hv' := hv
      unfold Valid at hv'
      have hstep : wrapInt (s.ChunkSize - s.ChunkOverlap) = (stepOf s : Int) := by
        rw [← hcast]; apply wrapInt_of_isInt; unfold IsInt minInt maxInt; omega
      have hnext : wrapInt (st.startIdx + wrapInt (s.ChunkSize - s.ChunkOverlap))
          = ((j + 1 : Nat) : Int) * (stepOf s : Int) := by
        rw [hstep, hst]
        have : ((j + 1 : Nat) : Int) * (stepOf s : Int)
            = (j : Int) * (stepOf s : Int) + (stepOf s : Int) := by push_cast; ring
        rw [this]
        apply wrapInt_of_isInt; unfold IsInt minInt maxInt; omega
      have hwin : (⟨st.startIdx, st.curIdx, (windowAt s inputIds j).chunkIds⟩ : Window)
          = windowAt s inputIds j := by
        rw [hst, hcur']; rfl
      simp only [splitLoop, if_pos hlt', hsl, hnext, hsp, Slice.append, hwin]
      obtain ⟨st', h1, h2, h3⟩ := ih (j + 1)
        { splits := some (l ++ [tk.Decode (windowAt s inputIds j).chunkIds])
          startIdx := ((j + 1 : Nat) : Int) * (stepOf s : Int)
          curIdx :=
            if wrapInt (((j + 1 : Nat) : Int) * (stepOf s : Int) + s.ChunkSize)
                > (inputIds.length : Int) then (inputIds.length : Int)
            else wrapInt (((j + 1 : Nat) : Int) * (stepOf s : Int) + s.ChunkSize)
          windows := st.windows ++ [windowAt s inputIds j] }
        (l ++ [tk.Decode (windowAt s inputIds j).chunkIds])
        (by omega) (by omega) rfl rfl
        (by
          intro hlt2
          have hlt2I : ((j + 1 : Nat) : Int) * (stepOf s : Int) < (inputIds.length : Int) := by
            exact_mod_cast hlt2
          have hnn : (0 : Int) ≤ ((j + 1 : Nat) : Int) * (stepOf s : Int) := by positivity
          have hw : wrapInt (((j + 1 : Nat) : Int) * (stepOf s : Int) + s.ChunkSize)
              = ((j + 1 : Nat) : Int) * (stepOf s : Int) + s.ChunkSize := by
            apply wrapInt_of_isInt; unfold IsInt minInt maxInt; omega
          simp only [hw]
          split
          · rw [min_eq_right]; omega
          · rw [min_eq_left]; omega)
      refine ⟨st', h1, ?_, ?_⟩
      · rw [h2]
        have : windowCount s inputIds.length - j = (windowCount s inputIds.length - (j + 1)) + 1 := by
          omega
        rw [this, List.range'_succ]
        simp
      · rw [h3]
        have : windowCount s inputIds.length - j = (windowCount s inputIds.length - (j + 1)) + 1 := by
          omega
        rw [this, List.range'_succ]
        simp
    · have hjk : j = windowCount s inputIds.length := by
        have := (lt_windowCount_iff hv inputIds.length j).not.2 hlt
        omega
      have hnot' : ¬ st.startIdx < (inputIds.length : Int) := by
        rw [hst]; intro h; apply hlt; exact_mod_cast h
      refine ⟨st, ?_, ?_, ?_⟩
      · simp [splitLoop, hnot']
      · simp [hjk, hsp]
      · simp [hjk]

theorem windowCount_le {s : TokenSplitter} (hv : Valid s) (n : Nat) : windowCount s n ≤ n := by
  by_contra h
  have h1 : n < windowCount s n := by omega
  have h2 := (lt_windowCount_iff hv n n).1 h1
  have h3 : n * 1 ≤ n * stepOf s := Nat.mul_le_mul_left n (stepOf_pos hv)
  omega

theorem windowCount_cast {s : TokenSplitter} (hv : Valid s) (n : Nat) :
    ((windowCount s n : Nat) : Int) = ceilDiv (n : Int) (s.ChunkSize - s.ChunkOverlap) := by
  have hpos := stepOf_pos hv
  rw [← stepOf_cast hv]
  unfold windowCount ceilDiv
  have h : ((n : Int) + (stepOf s : Int) - 1) = ((n + stepOf s - 1 : Nat) : Int) := by
    omega
  rw [h]
  norm_cast

theorem length_allWindows (s : TokenSplitter) (inputIds : List Int) :
    (allWindows s inputIds).length = windowCount s inputIds.length := by
  simp [allWindows]

/-- On a valid configuration whose index arithmetic fits the `int` range,
`splitText` returns once the fuel covers the number of windows; its chunks
are the decodings of `allWindows`, and the loop ran once per window. -/
theorem splitText_valid (s : TokenSplitter) (text : String) (tk : Tiktoken) (fuel : Nat)
    (hv : Valid s)
    (hf : Fits s (tk.Encode text s.AllowedSpecial s.DisallowedSpecial).length)
    (hfuel : windowCount s (tk.Encode text s.AllowedSpecial s.DisallowedSpecial).length ≤ fuel) :
    splitText s text tk fuel = .ret
      ⟨some ((allWindows s (tk.Encode text s.AllowedSpecial s.DisallowedSpecial)).map
          (fun w => tk.Decode w.chunkIds)),
        [text],
        allWindows s (tk.Encode text s.AllowedSpecial s.DisallowedSpecial)⟩ := by
  have hw : wrapInt (0 + s.ChunkSize) = s.ChunkSize := by
    rw [zero_add]
    apply wrapInt_of_isInt
    unfold Fits maxInt at hf
    unfold Valid at hv
    unfold IsInt minInt maxInt
    omega
  obtain ⟨st', h1, h2, h3⟩ := splitLoop_valid tk
    (tk.Encode text s.AllowedSpecial s.DisallowedSpecial) hv hf fuel 0
    ⟨some [], 0,
      if wrapInt (0 + s.ChunkSize)
          < ((tk.Encode text s.AllowedSpecial s.DisallowedSpecial).length : Int)
      then wrapInt (0 + s.ChunkSize)
      else ((tk.Encode text s.AllowedSpecial s.DisallowedSpecial).length : Int), []⟩
    [] (Nat.zero_le _) (by omega) rfl (by simp)
    (by
      intro _
      simp only [Nat.cast_zero, zero_mul, zero_add] at hw ⊢
      simp only [hw]
      split
      · rw [min_eq_left]; omega
      · rw [min_eq_right]; omega)
  unfold splitText
  simp only [h1, h2, h3]
  simp [allWindows, List.range_eq_range', List.map_map, Function.comp_def]

theorem SplitText_eq (lib : TiktokenLib) (s : TokenSplitter) (text : String) (fuel : Nat) :
    SplitText lib s text fuel =
      match resolveTokenizer lib s with
      | .error err => .ret ⟨none, some ("tiktoken.GetEncoding: " ++ err), [], []⟩
      | .ok tk =>
        match splitText s text tk fuel with
        | .ret run => .ret ⟨run.splits, none, run.encoded, run.windows⟩
        | .panic => .panic
        | .outOfFuel => .outOfFuel := rfl

/-- With a resolved tokenizer, a valid configuration and enough fuel,
`SplitText` returns the chunks of `splitText` and a nil error. -/
theorem SplitText_valid (lib : TiktokenLib) (s : TokenSplitter) (text : String) (tk : Tiktoken)
    (fuel : Nat) (hres : resolveTokenizer lib s = .ok tk) (hv : Valid s)
    (hf : Fits s (tk.Encode text s.AllowedSpecial s.DisallowedSpecial).length)
    (hfuel : windowCount s (tk.Encode text s.AllowedSpecial s.DisallowedSpecial).length ≤ fuel) :
    SplitText lib s text fuel = .ret
      ⟨some ((allWindows s (tk.Encode text s.AllowedSpecial s.DisallowedSpecial)).map
          (fun w => tk.Decode w.chunkIds)),
        none, [text],
        allWindows s (tk.Encode text s.AllowedSpecial s.DisallowedSpecial)⟩ := by
  rw [SplitText_eq, hres]
  simp only [splitText_valid s text tk fuel hv hf hfuel]

/-! ### The windows of a valid configuration -/

theorem windowAt_startIdx {s : TokenSplitter} (hv : Valid s) (inputIds : List Int) (i : Nat) :
    (windowAt s inputIds i).startIdx = (i : Int) * (s.ChunkSize - s.ChunkOverlap) := by
  rw [← stepOf_cast hv]; rfl

theorem windowAt_curIdx {s : TokenSplitter} (hv : Valid s) (inputIds : List Int) (i : Nat) :
    (windowAt s inputIds i).curIdx
      = min ((i : Int) * (s.ChunkSize - s.ChunkOverlap) + s.ChunkSize) (inputIds.length : Int) := by
  rw [← stepOf_cast hv]; rfl

theorem windowAt_chunkIds {s : TokenSplitter} (hv : Valid s) (inputIds : List Int) (i : Nat) :
    (windowAt s inputIds i).chunkIds
      = (inputIds.take
          (min ((i : Int) * (s.ChunkSize - s.ChunkOverlap) + s.ChunkSize)
            (inputIds.length : Int)).toNat).drop
          ((i : Int) * (s.ChunkSize - s.ChunkOverlap)).toNat := by
  rw [← stepOf_cast hv]; rfl

theorem getElem?_allWindows (s : TokenSplitter) (inputIds : List Int) (i : Nat) :
    (allWindows s inputIds)[i]? =
      if i < windowCount s inputIds.length then some (windowAt s inputIds i) else none := by
  unfold allWindows
  rw [List.getElem?_map]
  by_cases h : i < windowCount s inputIds.length
  · rw [List.getElem?_range h, if_pos h]; rfl
  · rw [if_neg h, List.getElem?_eq_none (by simpa using h)]; rfl

theorem lt_windowCount_iff_int {s : TokenSplitter} (hv : Valid s) (n i : Nat) :
    i < windowCount s n ↔ (i : Int) * (s.ChunkSize - s.ChunkOverlap) < (n : Int) := by
  rw [lt_windowCount_iff hv, ← stepOf_cast hv]
  norm_cast

/-! ### C4: consecutive windows -/

theorem overlap_lists {α : Type} (ids : List α) (a st oN H : Nat) (hH : a + st + oN ≤ H)
    (hN : a + st + oN ≤ ids.length) :
    ((ids.take (a + st + oN)).drop a).drop (((ids.take (a + st + oN)).drop a).length - oN)
      = ((ids.take H).drop (a + st)).take oN ∧
    (((ids.take H).drop (a + st)).take oN).length = oN := by
  constructor
  · have hlen : ((ids.take (a + st + oN)).drop a).length = st + oN := by
      simp; omega
    rw [hlen, List.drop_drop]
    apply List.ext_getElem?
    intro n
    simp only [List.getElem?_drop, List.getElem?_take]
    by_cases h : n < oN
    · rw [if_pos h, if_pos (by omega), if_pos (by omega)]
      congr 1; omega
    · rw [if_neg h, if_neg (by omega)]
  · simp; omega

theorem mem_allWindows_getElem? {s : TokenSplitter} {inputIds : List Int} {i : Nat} {w : Window}
    (h : (allWindows s inputIds)[i]? = some w) :
    i < windowCount s inputIds.length ∧ w = windowAt s inputIds i := by
  rw [getElem?_allWindows] at h
  split at h
  · exact ⟨by assumption, (Option.some.inj h).symm⟩
  · exact absurd h (by simp)

/-- C4: for a valid configuration, if windows `i` and `i + 1` are both
produced and window `i` starts at `startIdx` with `startIdx + ChunkSize <= N`,
then window `i + 1` starts `ChunkSize - ChunkOverlap` later, the two index
ranges meet in exactly the `ChunkOverlap` positions from the start of window
`i + 1` to the end of window `i`, and the last `ChunkOverlap` tokens of
window `i` are the first `ChunkOverlap` tokens of window `i + 1`. -/
theorem C4_adjacent_overlap (s : TokenSplitter) (text : String) (tk : Tiktoken) (fuel : Nat)
    (inputIds : List Int)
    (hids : tk.Encode text s.AllowedSpecial s.DisallowedSpecial = inputIds)
    (hv : Valid s) (hf : Fits s inputIds.length) (hfuel : inputIds.length ≤ fuel) :
    ∃ run, splitText s text tk fuel = .ret run ∧
      run.splits = some (run.windows.map (fun w => tk.Decode w.chunkIds)) ∧
      ∀ (i : Nat) (w w' : Window),
        run.windows[i]? = some w → run.windows[i + 1]? = some w' →
        w.startIdx + s.ChunkSize ≤ (inputIds.length : Int) →
          w'.startIdx = w.startIdx + (s.ChunkSize - s.ChunkOverlap) ∧
          w.curIdx = w.startIdx + s.ChunkSize ∧
          w'.startIdx + s.ChunkOverlap = w.curIdx ∧
          w.curIdx ≤ w'.curIdx ∧
          w.chunkIds.drop (w.chunkIds.length - s.ChunkOverlap.toNat)
            = w'.chunkIds.take s.ChunkOverlap.toNat ∧
          (w'.chunkIds.take s.ChunkOverlap.toNat).length = s.ChunkOverlap.toNat := by
  subst hids
  have hfuel' := le_trans (windowCount_le hv _) hfuel
  refine ⟨_, splitText_valid s text tk fuel hv hf hfuel', rfl, ?_⟩
  intro i w w' hw hw' hle
  obtain ⟨hi, rfl⟩ := mem_allWindows_getElem? hw
  obtain ⟨hi', rfl⟩ := mem_allWindows_getElem? hw'
  have hcast := stepOf_cast hv
  have hv' := hv
  unfold Valid at hv'
  obtain ⟨oN, ho⟩ := Int.eq_ofNat_of_zero_le hv'.1
  obtain ⟨cN, hc⟩ := Int.eq_ofNat_of_zero_le (le_of_lt (lt_of_le_of_lt hv'.1 hv'.2))
  have hstep : cN = stepOf s + oN := by omega
  have hlt := (lt_windowCount_iff hv _ _).1 hi'
  rw [Nat.add_mul, Nat.one_mul] at hlt
  simp only [windowAt] at hle ⊢
  rw [hc] at hle ⊢
  rw [ho]
  have e1 : ((i + 1 : Nat) : Int) * (stepOf s : Int) = ((i * stepOf s + stepOf s : Nat) : Int) := by
    push_cast; ring
  have e0 : (i : Int) * (stepOf s : Int) = ((i * stepOf s : Nat) : Int) := by
    push_cast; ring
  rw [e0] at hle
  simp only [e1, e0]
  generalize i * stepOf s = a at hle hlt ⊢
  have hle' : a + cN ≤ (tk.Encode text s.AllowedSpecial s.DisallowedSpecial).length := by
    exact_mod_cast hle
  have hmin : min ((a : Int) + (cN : Int))
      ((tk.Encode text s.AllowedSpecial s.DisallowedSpecial).length : Int)
      = ((a + stepOf s + oN : Nat) : Int) := by
    rw [min_eq_left hle]; push_cast; omega
  obtain ⟨H, hH⟩ : ∃ H : Nat, min (((a + stepOf s : Nat) : Int) + (cN : Int))
      ((tk.Encode text s.AllowedSpecial s.DisallowedSpecial).length : Int) = (H : Int) :=
    Int.eq_ofNat_of_zero_le (by rw [le_min_iff]; constructor <;> omega)
  have hHge : a + stepOf s + oN ≤ H := by
    have : ((a + stepOf s + oN : Nat) : Int) ≤ (H : Int) := by
      rw [← hH, le_min_iff]; constructor <;> push_cast <;> omega
    exact_mod_cast this
  rw [hmin, hH]
  simp only [Int.toNat_ofNat]
  have hl := overlap_lists (tk.Encode text s.AllowedSpecial s.DisallowedSpecial) a (stepOf s) oN H
    hHge (by omega)
  refine ⟨by push_cast; omega, by push_cast; omega, by push_cast; omega, ?_, hl.1, hl.2⟩
  have : ((a + stepOf s + oN : Nat) : Int) ≤ (H : Int) := by exact_mod_cast hHge
  exact this

/-- C4 at ChunkSize 4, ChunkOverlap 1 and the 8 tokens of "abcdefgh". -/
theorem C4_adjacent_overlap_witness :
    ∃ run, splitText ⟨4, 1, "m", "", [], []⟩ "abcdefgh" charTokenizer 8 = .ret run ∧
      run.splits = some (run.windows.map (fun w => charTokenizer.Decode w.chunkIds)) ∧
      ∀ (i : Nat) (w w' : Window),
        run.windows[i]? = some w → run.windows[i + 1]? = some w' →
        w.startIdx + 4 ≤ ((8 : Nat) : Int) →
          w'.startIdx = w.startIdx + (4 - 1) ∧
          w.curIdx = w.startIdx + 4 ∧
          w'.startIdx + 1 = w.curIdx ∧
          w.curIdx ≤ w'.curIdx ∧
          w.chunkIds.drop (w.chunkIds.length - (1 : Int).toNat)
            = w'.chunkIds.take (1 : Int).toNat ∧
          (w'.chunkIds.take (1 : Int).toNat).length = (1 : Int).toNat :=
  C4_adjacent_overlap ⟨4, 1, "m", "", [], []⟩ "abcdefgh" charTokenizer 8
    [97, 98, 99, 100, 101, 102, 103, 104] (by decide) (by decide) (by decide) (by decide)

/-! ### Membership and size of the windows -/

theorem windowAt_mem {s : TokenSplitter} {inputIds : List Int} {i : Nat}
    (hi : i < windowCount s inputIds.length) : windowAt s inputIds i ∈ allWindows s inputIds :=
  List.mem_map.2 ⟨i, List.mem_range.2 hi, rfl⟩

theorem mem_allWindows {s : TokenSplitter} {inputIds : List Int} {w : Window}
    (h : w ∈ allWindows s inputIds) :
    ∃ i, i < windowCount s inputIds.length ∧ w = windowAt s inputIds i := by
  obtain ⟨i, hi, rfl⟩ := List.mem_map.1 h
  exact ⟨i, List.mem_range.1 hi, rfl⟩

theorem windowAt_length_le {s : TokenSplitter} (hv : Valid s) (inputIds : List Int) (i : Nat) :
    ((windowAt s inputIds i).chunkIds.length : Int) ≤ s.ChunkSize := by
  unfold Valid at hv
  simp only [windowAt, List.length_drop, List.length_take]
  have e0 : (i : Int) * (stepOf s : Int) = ((i * stepOf s : Nat) : Int) := by
    push_cast; ring
  rw [e0]
  generalize i * stepOf s = a
  omega

/-! ### C6: chunk size bound -/

/-- C6: for a valid configuration, every chunk returned by `splitText` is the
decoding of a window of at most `ChunkSize` tokens; hence, whenever `Encode`
inverts `Decode` on that window, re-encoding the chunk yields at most
`ChunkSize` tokens. -/
theorem C6_chunk_size_bound (s : TokenSplitter) (text : String) (tk : Tiktoken) (fuel : Nat)
    (inputIds : List Int)
    (hids : tk.Encode text s.AllowedSpecial s.DisallowedSpecial = inputIds)
    (hv : Valid s) (hf : Fits s inputIds.length) (hfuel : inputIds.length ≤ fuel) :
    ∃ run chunks, splitText s text tk fuel = .ret run ∧ run.splits = some chunks ∧
      ∀ chunk ∈ chunks, ∃ w ∈ run.windows,
        chunk = tk.Decode w.chunkIds ∧
        (w.chunkIds.length : Int) ≤ s.ChunkSize ∧
        (tk.Encode (tk.Decode w.chunkIds) s.AllowedSpecial s.DisallowedSpecial = w.chunkIds →
          ((tk.Encode chunk s.AllowedSpecial s.DisallowedSpecial).length : Int)
            ≤ s.ChunkSize) := by
  subst hids
  have hfuel' := le_trans (windowCount_le hv _) hfuel
  refine ⟨_, _, splitText_valid s text tk fuel hv hf hfuel', rfl, ?_⟩
  intro chunk hchunk
  obtain ⟨w, hw, rfl⟩ := List.mem_map.1 hchunk
  obtain ⟨i, _, rfl⟩ := mem_allWindows hw
  refine ⟨_, hw, rfl, windowAt_length_le hv _ i, ?_⟩
  intro hrt
  rw [hrt]
  exact windowAt_length_le hv _ i

/-- C6 at ChunkSize 4, ChunkOverlap 1 and the 8 tokens of "abcdefgh". -/
theorem C6_chunk_size_bound_witness :
    ∃ run chunks, splitText ⟨4, 1, "m", "", [], []⟩ "abcdefgh" charTokenizer 8 = .ret run ∧
      run.splits = some chunks ∧
      ∀ chunk ∈ chunks, ∃ w ∈ run.windows,
        chunk = charTokenizer.Decode w.chunkIds ∧
        (w.chunkIds.length : Int) ≤ 4 ∧
        (charTokenizer.Encode (charTokenizer.Decode w.chunkIds) [] [] = w.chunkIds →
          ((charTokenizer.Encode chunk [] []).length : Int) ≤ 4) :=
  C6_chunk_size_bound ⟨4, 1, "m", "", [], []⟩ "abcdefgh" charTokenizer 8
    [97, 98, 99, 100, 101, 102, 103, 104] (by decide) (by decide) (by decide) (by decide)

/-! ### C7: a text without tokens -/

theorem splitText_of_no_tokens (s : TokenSplitter) (text : String) (tk : Tiktoken) (fuel : Nat)
    (h0 : (tk.Encode text s.AllowedSpecial s.DisallowedSpecial).length = 0) :
    splitText s text tk fuel = .ret ⟨some [], [text], []⟩ := by
  unfold splitText
  cases fuel <;> simp [splitLoop, h0]

/-- C7: for every configuration, valid or not, and every text whose encoding
has zero tokens, `splitText` returns the empty non-nil slice, and the loop
body never runs, so `Decode` is never called. -/
theorem C7_zero_tokens (s : TokenSplitter) (text : String) (tk : Tiktoken) (fuel : Nat)
    (h0 : (tk.Encode text s.AllowedSpecial s.DisallowedSpecial).length = 0) :
    splitText s text tk fuel = .ret ⟨some [], [text], []⟩ ∧
    (∀ run, splitText s text tk fuel = .ret run →
      run.splits ≠ none ∧ run.splits.len = 0 ∧ run.windows = []) := by
  have h := splitText_of_no_tokens s text tk fuel h0
  refine ⟨h, ?_⟩
  intro run hrun
  rw [h] at hrun
  simp only [Outcome.ret.injEq] at hrun
  subst hrun
  exact ⟨by simp, rfl, rfl⟩

/-- C7 at ChunkSize 3, ChunkOverlap 7 and the empty text, without any fuel. -/
theorem C7_zero_tokens_witness :
    (charTokenizer.Encode "" [] ["all"]).length = 0 ∧
    splitText ⟨3, 7, "m", "", [], ["all"]⟩ "" charTokenizer 0 = .ret ⟨some [], [""], []⟩ :=
  ⟨by decide, (C7_zero_tokens ⟨3, 7, "m", "", [], ["all"]⟩ "" charTokenizer 0 (by decide)).1⟩

/-! ### The windowing loop when `ChunkOverlap >= ChunkSize` -/

theorem wrapInt_isInt (x : Int) : IsInt (wrapInt x) := by
  unfold IsInt minInt maxInt wrapInt
  omega

theorem sliceExpr_eq_some {α : Type} {xs : List α} {lo hi : Int} {ys : List α}
    (h : sliceExpr xs lo hi = some ys) : 0 ≤ lo ∧ lo ≤ hi ∧ hi ≤ (xs.length : Int) := by
  unfold sliceExpr at h
  split at h
  · assumption
  · cases h

/-- With a step that is not positive the loop never returns from a state
whose `startIdx` is at most 0 when there is at least one token: it panics on
a negative slice index or keeps running. -/
theorem splitLoop_no_ret (s : TokenSplitter) (tk : Tiktoken) (inputIds : List Int)
    (hN : 0 < inputIds.length) (hstep : wrapInt (s.ChunkSize - s.ChunkOverlap) ≤ 0) :
    ∀ (fuel : Nat) (st st' : LoopState), st.startIdx ≤ 0 →
      splitLoop s tk inputIds fuel st ≠ .ret st' := by
  intro fuel
  induction fuel with
  | zero =>
    intro st st' hst
    have hlt : st.startIdx < (inputIds.length : Int) := by omega
    simp [splitLoop, hlt]
  | succ fuel ih =>
    intro st st' hst
    have hlt : st.startIdx < (inputIds.length : Int) := by omega
    simp only [splitLoop, if_pos hlt]
    cases hsl : sliceExpr inputIds st.startIdx st.curIdx with
    | none => simp
    | some chunkIds =>
      have h0 := (sliceExpr_eq_some hsl).1
      have hz : st.startIdx = 0 := by omega
      simp only
      apply ih
      simp only [hz, zero_add]
      rw [wrapInt_of_isInt (wrapInt_isInt _)]
      exact hstep

/-- When `ChunkOverlap >= ChunkSize` and the text has at least one token,
`splitText` does not return: it panics or runs forever. -/
theorem splitText_no_ret (s : TokenSplitter) (text : String) (tk : Tiktoken) (fuel : Nat)
    (hc : IsInt s.ChunkSize) (ho : IsInt s.ChunkOverlap) (hbad : s.ChunkOverlap ≥ s.ChunkSize)
    (hN : 0 < (tk.Encode text s.AllowedSpecial s.DisallowedSpecial).length)
    (run : SplitRun) : splitText s text tk fuel ≠ .ret run := by
  have hw : wrapInt (0 + s.ChunkSize) = s.ChunkSize := by
    rw [zero_add]; exact wrapInt_of_isInt hc
  unfold splitText
  simp only [hw]
  by_cases hneg : s.ChunkSize < 0
  · have hlt : s.ChunkSize
        < ((tk.Encode text s.AllowedSpecial s.DisallowedSpecial).length : Int) := by omega
    rw [if_pos hlt]
    cases fuel with
    | zero => simp [splitLoop, hN]
    | succ fuel =>
      have hsl : sliceExpr (tk.Encode text s.AllowedSpecial s.DisallowedSpecial) 0 s.ChunkSize
          = none := by
        unfold sliceExpr
        rw [if_neg]
        omega
      simp [splitLoop, hN, hsl]
  · have hstep : wrapInt (s.ChunkSize - s.ChunkOverlap) ≤ 0 := by
      rw [wrapInt_of_isInt]
      · omega
      · unfold IsInt minInt maxInt at *
        omega
    intro h
    split at h
    · rename_i st heq
      exact splitLoop_no_ret s tk _ hN hstep fuel _ st (le_refl 0) heq
    · cases h
    · cases h

/-! ### C2 and C9: the errors of `SplitText` -/

theorem SplitText_err_iff (lib : TiktokenLib) (s : TokenSplitter) (text : String) (fuel : Nat)
    (res : SplitTextResult) (h : SplitText lib s text fuel = .ret res) :
    res.err ≠ none ↔ ∃ e, resolveTokenizer lib s = .error e := by
  rw [SplitText_eq] at h
  cases hr : resolveTokenizer lib s with
  | error e =>
    rw [hr] at h
    simp only [Outcome.ret.injEq] at h
    subst h
    simp
  | ok tk =>
    rw [hr] at h
    simp only at h
    cases hs : splitText s text tk fuel with
    | ret run =>
      rw [hs] at h
      simp only [Outcome.ret.injEq] at h
      subst h
      simp
    | panic => rw [hs] at h; cases h
    | outOfFuel => rw [hs] at h; cases h

/-- C2 (counterexample): with ChunkSize 3 and ChunkOverlap 7 and a tokenizer
that resolves, `SplitText` on the empty text returns an empty chunk list and
a nil error; on the text "abc" with ChunkSize 2 and ChunkOverlap 5 it decodes
the first window and then panics on the slice `inputIds[-3:-1]`.  Neither run
returns a configuration error. -/
theorem C2_overlap_counterexample :
    (7 : Int) ≥ 3 ∧
    SplitText charLib ⟨3, 7, "m", "", [], []⟩ "" 0 = .ret ⟨some [], none, [""], []⟩ ∧
    (5 : Int) ≥ 2 ∧
    SplitText charLib ⟨2, 5, "m", "", [], []⟩ "abc" 5 = .panic ∧
    splitLoop ⟨2, 5, "m", "", [], []⟩ charTokenizer [97, 98, 99] 1 ⟨some [], 0, 2, []⟩
      = .outOfFuel ∧
    splitLoop ⟨2, 5, "m", "", [], []⟩ charTokenizer [97, 98, 99] 2 ⟨some [], 0, 2, []⟩
      = .panic := by
  decide

/-- C2 (amended): when `ChunkOverlap >= ChunkSize`, `SplitText` makes no check
of the two sizes.  Whenever it returns, its error is non-nil exactly when the
tokenizer resolution failed; with a resolved tokenizer and a text of zero
tokens it returns the empty chunk list and a nil error; and it never returns
a chunk: every chunk list it returns is nil or empty. -/
theorem C2_no_size_validation (lib : TiktokenLib) (s : TokenSplitter) (text : String)
    (fuel : Nat) (hc : IsInt s.ChunkSize) (ho : IsInt s.ChunkOverlap)
    (hbad : s.ChunkOverlap ≥ s.ChunkSize) :
    (∀ res, SplitText lib s text fuel = .ret res →
      (res.err ≠ none ↔ ∃ e, resolveTokenizer lib s = .error e)) ∧
    (∀ tk, resolveTokenizer lib s = .ok tk →
      (tk.Encode text s.AllowedSpecial s.DisallowedSpecial).length = 0 →
      SplitText lib s text fuel = .ret ⟨some [], none, [text], []⟩) ∧
    (∀ res, SplitText lib s text fuel = .ret res → res.texts.len = 0) := by
  refine ⟨fun res h => SplitText_err_iff lib s text fuel res h, ?_, ?_⟩
  · intro tk hres h0
    rw [SplitText_eq, hres]
    simp only
    rw [splitText_of_no_tokens s text tk fuel h0]
  · intro res h
    rw [SplitText_eq] at h
    cases hr : resolveTokenizer lib s with
    | error e =>
      rw [hr] at h
      simp only [Outcome.ret.injEq] at h
      subst h
      rfl
    | ok tk =>
      rw [hr] at h
      simp only at h
      by_cases h0 : (tk.Encode text s.AllowedSpecial s.DisallowedSpecial).length = 0
      · rw [splitText_of_no_tokens s text tk fuel h0] at h
        simp only [Outcome.ret.injEq] at h
        subst h
        rfl
      · cases hs : splitText s text tk fuel with
        | ret run => exact absurd hs (splitText_no_ret s text tk fuel hc ho hbad (by omega) run)
        | panic => rw [hs] at h; cases h
        | outOfFuel => rw [hs] at h; cases h

/-- C2 (amended) at ChunkSize 3, ChunkOverlap 7 and the empty text. -/
theorem C2_no_size_validation_witness :
    IsInt 3 ∧ IsInt 7 ∧ (7 : Int) ≥ 3 ∧
    SplitText charLib ⟨3, 7, "m", "", [], []⟩ "" 0 = .ret ⟨some [], none, [""], []⟩ :=
  ⟨by decide, by decide, by decide,
    (C2_no_size_validation charLib ⟨3, 7, "m", "", [], []⟩ "" 0
      (by decide) (by decide) (by decide)).2.1 charTokenizer rfl (by decide)⟩

/-- C9: when `ModelName` and `EncodingName` are both empty, `SplitText`
returns a nil chunk list and a non-nil error without calling `Encode`, for
every text; conversely, whenever `SplitText` returns a non-nil error, the
chunk list is nil, nothing was encoded, and the tokenizer resolution failed:
`EncodingForModel` failed on a non-empty model name, or `GetEncoding` failed
on a non-empty encoding name with an empty model name, or both names are
empty. -/
theorem C9_resolution_errors (lib : TiktokenLib) (s : TokenSplitter) (text : String)
    (fuel : Nat) :
    (s.ModelName = "" → s.EncodingName = "" →
      SplitText lib s text fuel = .ret
        ⟨none, some ("tiktoken.GetEncoding: " ++ "must have either model name or encoding name"),
          [], []⟩) ∧
    (∀ res, SplitText lib s text fuel = .ret res → res.err ≠ none →
      res.texts = none ∧ res.encoded = [] ∧ res.windows = [] ∧
      ((s.ModelName ≠ "" ∧ ∃ e, lib.EncodingForModel s.ModelName = .error e) ∨
       (s.ModelName = "" ∧ s.EncodingName ≠ "" ∧ ∃ e, lib.GetEncoding s.EncodingName = .error e) ∨
       (s.ModelName = "" ∧ s.EncodingName = ""))) := by
  constructor
  · intro hm he
    simp [SplitText, hm, he]
  · intro res h herr
    rw [SplitText_eq] at h
    cases hr : resolveTokenizer lib s with
    | error e =>
      rw [hr] at h
      simp only [Outcome.ret.injEq] at h
      subst h
      refine ⟨rfl, rfl, rfl, ?_⟩
      unfold resolveTokenizer at hr
      by_cases hm : s.ModelName = ""
      · by_cases he : s.EncodingName = ""
        · exact Or.inr (Or.inr ⟨hm, he⟩)
        · simp only [hm, he, ne_eq, not_true_eq_false, not_false_eq_true, if_true, if_false] at hr
          exact Or.inr (Or.inl ⟨hm, he, e, hr⟩)
      · simp only [hm, ne_eq, not_false_eq_true, if_true] at hr
        exact Or.inl ⟨hm, e, hr⟩
    | ok tk =>
      rw [hr] at h
      simp only at h
      cases hs : splitText s text tk fuel with
      | ret run =>
        rw [hs] at h
        simp only [Outcome.ret.injEq] at h
        subst h
        exact absurd rfl herr
      | panic => rw [hs] at h; cases h
      | outOfFuel => rw [hs] at h; cases h

/-- C9 at a splitter with both names empty. -/
theorem C9_resolution_errors_witness :
    SplitText charLib ⟨512, 100, "", "", [], ["all"]⟩ "some text" 0 = .ret
      ⟨none, some ("tiktoken.GetEncoding: " ++ "must have either model name or encoding name"),
        [], []⟩ :=
  (C9_resolution_errors charLib ⟨512, 100, "", "", [], ["all"]⟩ "some text" 0).1 rfl rfl

end textsplitter

namespace documentloaders

/-! ### C10: the password across two `Load` calls -/

/-- The result of `Load` depends on the heap only through the bytes that
`io.ReadAll` returns: a second `Load` of the same loader that reads the same
bytes returns what the first returned. -/
theorem Load_fst_congr (lib : PdfLib) (p : PDF) (h h' : Heap)
    (he : (ioReadAll (h p.r)).1 = (ioReadAll (h' p.r)).1) :
    (p.Load lib h).1 = (p.Load lib h').1 := by
  unfold PDF.Load PDF.LoadBody
  rcases hx : ioReadAll (h p.r) with ⟨d, rs⟩
  rcases hy : ioReadAll (h' p.r) with ⟨d', rs'⟩
  rw [hx, hy] at he
  simp only at he
  subst he
  cases d with
  | error e => rfl
  | ok data =>
    simp only
    split
    · split <;> rfl
    · split <;> rfl

/-- C10 (the code at the failing input): a loader built with the password
"secret" over a reader that can be read twice.  The first `Load` hands
"secret" to the decoder and returns the page.  After it the password field
of the loader is still "secret" (only the copy inside `Load` was cleared),
and the second `Load` hands "secret" to the decoder again and decrypts the
document again, where the claim and the comment on `getPassword` have the
password used up.  Over a plain stream the second `Load` fails because no
bytes are left, with the password field still "secret". -/
theorem C10_second_load_keeps_password :
    (loadTwice demoLib (NewPDF 0 4 [WithPassword "secret"]) demoHeap).first
      = ⟨some [⟨"page one", [("page", 1), ("total_pages", 1)]⟩], none, ["secret"]⟩ ∧
    (loadTwice demoLib (NewPDF 0 4 [WithPassword "secret"]) demoHeap).loader.password
      = "secret" ∧
    (loadTwice demoLib (NewPDF 0 4 [WithPassword "secret"]) demoHeap).second
      = ⟨some [⟨"page one", [("page", 1), ("total_pages", 1)]⟩], none, ["secret"]⟩ ∧
    (loadTwice demoLib (NewPDF 0 4 [WithPassword "secret"]) streamHeap).loader.password
      = "secret" ∧
    (loadTwice demoLib (NewPDF 0 4 [WithPassword "secret"]) streamHeap).second
      = ⟨none, some "not a PDF file", []⟩ ∧
    (PDF.LoadBody demoLib (NewPDF 0 4 [WithPassword "secret"]) demoHeap).2.1.password = "" := by
  decide

/-! ### The steps of `Load` -/

open textsplitter in
theorem loadPages_ok (reader : PdfReader) (numPages : Int) (texts : Nat → String) (N : Nat)
    (hN : (N : Int) < maxInt)
    (hpages : ∀ k : Nat, 1 ≤ k → k ≤ N →
      (reader.Page (k : Int)).GetPlainText (fontsUpTo reader k) = .ok (texts k)) :
    ∀ (remaining j : Nat) (docs : List Document), j + remaining = N →
      loadPages reader numPages remaining ((j : Int) + 1) (fontsUpTo reader j) docs
        = (some (docs ++ (List.range' (j + 1) remaining).map
            (fun k => ⟨texts k, [("page", (k : Int)), ("total_pages", numPages)]⟩)), none) := by
  intro remaining
  induction remaining with
  | zero => intro j docs _; simp [loadPages]
  | succ remaining ih =>
    intro j docs hj
    have hcast : ((j : Int) + 1) = ((j + 1 : Nat) : Int) := by push_cast; rfl
    have hfonts : addFonts (reader.Page ((j : Int) + 1)) (fontsUpTo reader j)
        = fontsUpTo reader (j + 1) := by
      rw [hcast]; rfl
    have hnext : wrapInt ((j : Int) + 1 + 1) = ((j + 1 : Nat) : Int) + 1 := by
      rw [wrapInt_of_isInt]
      · push_cast; rfl
      · unfold IsInt minInt maxInt
        unfold maxInt at hN
        omega
    have htext := hpages (j + 1) (by omega) (by omega)
    rw [← hcast] at htext
    simp only [loadPages, hfonts, htext, hnext]
    rw [ih (j + 1) _ (by omega), List.range'_succ]
    simp only [List.map_cons, List.append_assoc, List.singleton_append, hcast]

theorem Load_read_error (lib : PdfLib) (p : PDF) (heap : Heap) (e : String)
    (hread : (ioReadAll (heap p.r)).1 = .error e) :
    (p.Load lib heap).1 = ⟨none, some e, []⟩ := by
  unfold PDF.Load PDF.LoadBody
  rcases hx : ioReadAll (heap p.r) with ⟨d, rs⟩
  rw [hx] at hread
  simp only at hread
  subst hread
  rfl

theorem Load_open_error (lib : PdfLib) (p : PDF) (heap : Heap) (data : List UInt8) (e : String)
    (hread : (ioReadAll (heap p.r)).1 = .ok data) (hopen : openReader lib p data = .error e) :
    (p.Load lib heap).1.docs = none ∧ (p.Load lib heap).1.err = some e := by
  unfold PDF.Load PDF.LoadBody
  unfold openReader at hopen
  rcases hx : ioReadAll (heap p.r) with ⟨d, rs⟩
  rw [hx] at hread
  simp only at hread
  subst hread
  simp only
  by_cases hp : p.password ≠ ""
  · rw [if_pos hp] at hopen ⊢
    have hopen' : (lib.NewReaderEncrypted data p.s
        (fun st : PDF × List String =>
          (st.1.getPassword.1, st.1.getPassword.2, st.2 ++ [st.1.getPassword.1])) (p, [])).1
        = .error e := hopen
    rcases hy : lib.NewReaderEncrypted data p.s
        (fun st : PDF × List String =>
          (st.1.getPassword.1, st.1.getPassword.2, st.2 ++ [st.1.getPassword.1])) (p, [])
      with ⟨r, q, log⟩
    rw [hy] at hopen'
    simp only at hopen'
    subst hopen'
    exact ⟨rfl, rfl⟩
  · rw [if_neg hp] at hopen ⊢
    rw [hopen]
    exact ⟨rfl, rfl⟩

theorem Load_opened (lib : PdfLib) (p : PDF) (heap : Heap) (data : List UInt8)
    (reader : PdfReader)
    (hread : (ioReadAll (heap p.r)).1 = .ok data) (hopen : openReader lib p data = .ok reader) :
    (p.Load lib heap).1.docs = (loadReader reader).1 ∧
    (p.Load lib heap).1.err = (loadReader reader).2 := by
  unfold PDF.Load PDF.LoadBody
  unfold openReader at hopen
  rcases hx : ioReadAll (heap p.r) with ⟨d, rs⟩
  rw [hx] at hread
  simp only at hread
  subst hread
  simp only
  by_cases hp : p.password ≠ ""
  · rw [if_pos hp] at hopen ⊢
    have hopen' : (lib.NewReaderEncrypted data p.s
        (fun st : PDF × List String =>
          (st.1.getPassword.1, st.1.getPassword.2, st.2 ++ [st.1.getPassword.1])) (p, [])).1
        = .ok reader := hopen
    rcases hy : lib.NewReaderEncrypted data p.s
        (fun st : PDF × List String =>
          (st.1.getPassword.1, st.1.getPassword.2, st.2 ++ [st.1.getPassword.1])) (p, [])
      with ⟨r, q, log⟩
    rw [hy] at hopen'
    simp only at hopen'
    subst hopen'
    exact ⟨rfl, rfl⟩
  · rw [if_neg hp] at hopen ⊢
    rw [hopen]
    exact ⟨rfl, rfl⟩

/-! ### C11: one document per page -/

open textsplitter in
theorem loadReader_ok (reader : PdfReader) (texts : Nat → String) (N : Nat)
    (hnum : reader.NumPage = (N : Int)) (hN : (N : Int) < maxInt)
    (hpages : ∀ k : Nat, 1 ≤ k → k ≤ N →
      (reader.Page (k : Int)).GetPlainText (fontsUpTo reader k) = .ok (texts k)) :
    loadReader reader
      = (some ((List.range' 1 N).map
          (fun k => ⟨texts k, [("page", (k : Int)), ("total_pages", (N : Int))]⟩)), none) := by
  have hcount : (wrapInt ((N : Int) + 1) - 1).toNat = N := by
    rw [wrapInt_of_isInt]
    · omega
    · unfold IsInt minInt maxInt
      unfold maxInt at hN
      omega
  have h := loadPages_ok reader (N : Int) texts N hN hpages N 0 [] (by omega)
  unfold loadReader
  simp only [hnum, hcount]
  simpa using h

open textsplitter in
/-- C11: when the stream is read, the decoder opens the document, reports
`N` pages and extracts the text of every page (with the fonts collected up to
that page), `Load` returns a nil error and exactly `N` documents, and for
`k = 1 .. N` the document at position `k` has the text of page `k` as
`PageContent` and the metadata `page = k`, `total_pages = N`. -/
theorem C11_load_documents (lib : PdfLib) (p : PDF) (heap : Heap) (data : List UInt8)
    (reader : PdfReader) (N : Nat) (texts : Nat → String)
    (hread : (ioReadAll (heap p.r)).1 = .ok data)
    (hopen : openReader lib p data = .ok reader)
    (hnum : reader.NumPage = (N : Int)) (hN : (N : Int) < maxInt)
    (hpages : ∀ k : Nat, 1 ≤ k → k ≤ N →
      (reader.Page (k : Int)).GetPlainText (fontsUpTo reader k) = .ok (texts k)) :
    ∃ docs, (p.Load lib heap).1.docs = some docs ∧ (p.Load lib heap).1.err = none ∧
      docs.length = N ∧
      ∀ k : Nat, 1 ≤ k → k ≤ N →
        docs[k - 1]? = some ⟨texts k, [("page", (k : Int)), ("total_pages", (N : Int))]⟩ := by
  obtain ⟨h1, h2⟩ := Load_opened lib p heap data reader hread hopen
  rw [loadReader_ok reader texts N hnum hN hpages] at h1 h2
  refine ⟨_, h1, h2, by simp, ?_⟩
  intro k hk1 hkN
  rw [List.getElem?_map, List.getElem?_range' 1 1 (by omega : k - 1 < N)]
  simp only [Option.map_some', Nat.one_mul]
  have : 1 + (k - 1) = k := by omega
  rw [this]

open textsplitter in
/-- C11 at the one-page document of `demoLib`, opened with the password
"secret". -/
theorem C11_load_documents_witness :
    ∃ docs, ((NewPDF 0 4 [WithPassword "secret"]).Load demoLib demoHeap).1.docs = some docs ∧
      ((NewPDF 0 4 [WithPassword "secret"]).Load demoLib demoHeap).1.err = none ∧
      docs.length = 1 ∧
      ∀ k : Nat, 1 ≤ k → k ≤ 1 →
        docs[k - 1]? = some ⟨"page one", [("page", (k : Int)), ("total_pages", ((1 : Nat) : Int))]⟩ :=
  C11_load_documents demoLib (NewPDF 0 4 [WithPassword "secret"]) demoHeap [37, 80, 68, 70]
    demoReader 1 (fun _ => "page one") rfl rfl rfl (by decide) (fun _ _ _ => rfl)

/-! ### C12: errors abort the load -/

open textsplitter in
theorem loadPages_fail (reader : PdfReader) (numPages : Int) (texts : Nat → String) (k : Nat)
    (e : String) (hk : (k : Int) ≤ maxInt)
    (hpages : ∀ i : Nat, 1 ≤ i → i < k →
      (reader.Page (i : Int)).GetPlainText (fontsUpTo reader i) = .ok (texts i))
    (hfail : (reader.Page (k : Int)).GetPlainText (fontsUpTo reader k) = .error e) :
    ∀ (remaining j : Nat) (docs : List Document), j < k → k ≤ j + remaining →
      loadPages reader numPages remaining ((j : Int) + 1) (fontsUpTo reader j) docs
        = (none, some e) := by
  intro remaining
  induction remaining with
  | zero => intro j docs h1 h2; omega
  | succ remaining ih =>
    intro j docs h1 h2
    have hcast : ((j : Int) + 1) = ((j + 1 : Nat) : Int) := by push_cast; rfl
    have hfonts : addFonts (reader.Page ((j : Int) + 1)) (fontsUpTo reader j)
        = fontsUpTo reader (j + 1) := by
      rw [hcast]; rfl
    by_cases hjk : j + 1 = k
    · subst hjk
      rw [← hcast] at hfail
      simp only [loadPages, hfonts, hfail]
    · have hnext : wrapInt ((j : Int) + 1 + 1) = ((j + 1 : Nat) : Int) + 1 := by
        rw [wrapInt_of_isInt]
        · push_cast; rfl
        · unfold IsInt minInt maxInt
          unfold maxInt at hk
          omega
      have htext := hpages (j + 1) (by omega) (by omega)
      rw [← hcast] at htext
      simp only [loadPages, hfonts, htext, hnext]
      exact ih (j + 1) _ (by omega) (by omega)

theorem fontsUpTo_congr (reader reader' : PdfReader) (k : Nat)
    (h : ∀ i : Int, i ≤ (k : Int) → reader'.Page i = reader.Page i) :
    ∀ j : Nat, j ≤ k → fontsUpTo reader' j = fontsUpTo reader j := by
  intro j
  induction j with
  | zero => intro _; rfl
  | succ j ih =>
    intro hj
    simp only [fontsUpTo]
    rw [ih (by omega), h _ (by exact_mod_cast hj)]

open textsplitter in
theorem loadReader_fail (reader : PdfReader) (texts : Nat → String) (N k : Nat) (e : String)
    (hnum : reader.NumPage = (N : Int)) (hN : (N : Int) < maxInt) (hk1 : 1 ≤ k) (hkN : k ≤ N)
    (hpages : ∀ i : Nat, 1 ≤ i → i < k →
      (reader.Page (i : Int)).GetPlainText (fontsUpTo reader i) = .ok (texts i))
    (hfail : (reader.Page (k : Int)).GetPlainText (fontsUpTo reader k) = .error e) :
    loadReader reader = (none, some e) := by
  have hcount : (wrapInt ((N : Int) + 1) - 1).toNat = N := by
    rw [wrapInt_of_isInt]
    · omega
    · unfold IsInt minInt maxInt
      unfold maxInt at hN
      omega
  have h := loadPages_fail reader (N : Int) texts k e (by omega) hpages hfail N 0 []
    (by omega) (by omega)
  unfold loadReader
  simp only [hnum, hcount]
  simpa using h

open textsplitter in
/-- C12: if reading the stream fails, or opening the document fails, or the
text of page `k` cannot be extracted after the pages before it were, `Load`
returns that error with a nil document list; in the last case the result is
the same for every document that agrees on the page count and on the pages up
to `k`, so no page after `k` is processed. -/
theorem C12_load_fails_fast (lib : PdfLib) (p : PDF) (heap : Heap) :
    (∀ e : String, (ioReadAll (heap p.r)).1 = .error e →
      (p.Load lib heap).1.docs = none ∧ (p.Load lib heap).1.err = some e) ∧
    (∀ (data : List UInt8) (e : String), (ioReadAll (heap p.r)).1 = .ok data →
      openReader lib p data = .error e →
      (p.Load lib heap).1.docs = none ∧ (p.Load lib heap).1.err = some e) ∧
    (∀ (data : List UInt8) (reader : PdfReader) (N k : Nat) (e : String) (texts : Nat → String),
      (ioReadAll (heap p.r)).1 = .ok data →
      openReader lib p data = .ok reader →
      reader.NumPage = (N : Int) → (N : Int) < maxInt → 1 ≤ k → k ≤ N →
      (∀ i : Nat, 1 ≤ i → i < k →
        (reader.Page (i : Int)).GetPlainText (fontsUpTo reader i) = .ok (texts i)) →
      (reader.Page (k : Int)).GetPlainText (fontsUpTo reader k) = .error e →
      (p.Load lib heap).1.docs = none ∧ (p.Load lib heap).1.err = some e ∧
      ∀ reader' : PdfReader, reader'.NumPage = reader.NumPage →
        (∀ i : Int, i ≤ (k : Int) → reader'.Page i = reader.Page i) →
        loadReader reader' = (none, some e)) := by
  refine ⟨?_, ?_, ?_⟩
  · intro e hread
    rw [Load_read_error lib p heap e hread]
    exact ⟨rfl, rfl⟩
  · intro data e hread hopen
    exact Load_open_error lib p heap data e hread hopen
  · intro data reader N k e texts hread hopen hnum hN hk1 hkN hpages hfail
    obtain ⟨h1, h2⟩ := Load_opened lib p heap data reader hread hopen
    rw [loadReader_fail reader texts N k e hnum hN hk1 hkN hpages hfail] at h1 h2
    refine ⟨h1, h2, ?_⟩
    intro reader' hnum' hsame
    have hf := fontsUpTo_congr reader reader' k hsame
    apply loadReader_fail reader' texts N k e (by rw [hnum', hnum]) hN hk1 hkN
    · intro i hi1 hik
      rw [hf i (by omega), hsame _ (by exact_mod_cast (by omega : i ≤ k))]
      exact hpages i hi1 hik
    · rw [hf k (le_refl k), hsame _ (le_refl _)]
      exact hfail

/-- C12 at three concrete loads: a reader that fails, a wrong password, and a
three-page document whose page 2 cannot be extracted. -/
theorem C12_load_fails_fast_witness :
    (((NewPDF 0 4 []).Load demoLib failingHeap).1.docs = none ∧
      ((NewPDF 0 4 []).Load demoLib failingHeap).1.err = some "read failed") ∧
    (((NewPDF 0 4 [WithPassword "wrong"]).Load demoLib demoHeap).1.docs = none ∧
      ((NewPDF 0 4 [WithPassword "wrong"]).Load demoLib demoHeap).1.err
        = some "invalid password") ∧
    (((NewPDF 0 4 []).Load brokenLib demoHeap).1.docs = none ∧
      ((NewPDF 0 4 []).Load brokenLib demoHeap).1.err = some "bad page") :=
  ⟨(C12_load_fails_fast demoLib (NewPDF 0 4 []) failingHeap).1 "read failed" rfl,
    (C12_load_fails_fast demoLib (NewPDF 0 4 [WithPassword "wrong"]) demoHeap).2.1
      [37, 80, 68, 70] "invalid password" rfl rfl,
    have h := (C12_load_fails_fast brokenLib (NewPDF 0 4 []) demoHeap).2.2
      [37, 80, 68, 70] brokenReader 3 2 "bad page" (fun _ => "text") rfl rfl rfl
      (by decide) (by decide) (by decide)
      (fun i h1 h2 => by
        have hi : i = 1 := by omega
        subst hi
        rfl)
      rfl
    ⟨h.1, h.2.1⟩⟩

/-! ### C16: `getPassword` -/

/-- The struct behind the pointer after `n` calls of `getPassword`. -/
theorem getPassword_iterate (p : PDF) (n : Nat) :
    ((fun q : PDF => q.getPassword.2)^[n + 1]) p = { p with password := "" } := by
  induction n with
  | zero => rfl
  | succ n ih =>
    rw [Function.iterate_succ_apply', ih]
    rfl

/-- C16: the first call of `getPassword` through a pointer returns the
password and leaves the password field empty; every later call through the
same pointer returns the empty string; no call changes the fields `r` and
`s`. -/
theorem C16_getPassword_once (p : PDF) :
    p.getPassword.1 = p.password ∧
    p.getPassword.2.password = "" ∧
    (∀ n : Nat, (((fun q : PDF => q.getPassword.2)^[n + 1]) p).getPassword.1 = "") ∧
    (∀ n : Nat, (((fun q : PDF => q.getPassword.2)^[n]) p).r = p.r ∧
      (((fun q : PDF => q.getPassword.2)^[n]) p).s = p.s) := by
  refine ⟨rfl, rfl, ?_, ?_⟩
  · intro n
    rw [getPassword_iterate]
    rfl
  · intro n
    cases n with
    | zero => exact ⟨rfl, rfl⟩
    | succ n =>
      rw [getPassword_iterate]
      exact ⟨rfl, rfl⟩

/-- C16 at a loader with the password "secret": the first call returns it,
the second and third return the empty string. -/
theorem C16_getPassword_once_witness :
    (NewPDF 7 4 [WithPassword "secret"]).getPassword = ("secret", ⟨7, 4, ""⟩) ∧
    (NewPDF 7 4 [WithPassword "secret"]).getPassword.2.getPassword = ("", ⟨7, 4, ""⟩) ∧
    (((fun q : PDF => q.getPassword.2)^[1 + 1]) (NewPDF 7 4 [WithPassword "secret"])).getPassword.1
      = "" :=
  ⟨by decide, by decide, (C16_getPassword_once (NewPDF 7 4 [WithPassword "secret"])).2.2.1 1⟩

/-! ### C17: `ReadAt` -/

theorem goCopy_spec {α : Type} (dst src : List α) :
    (goCopy dst src).1 = min dst.length src.length ∧
    (goCopy dst src).2.take (min dst.length src.length) = src.take (min dst.length src.length) ∧
    (goCopy dst src).2.drop (min dst.length src.length) = dst.drop (min dst.length src.length) ∧
    (goCopy dst src).2.length = dst.length := by
  unfold goCopy
  have hlen : (src.take (min dst.length src.length)).length = min dst.length src.length := by
    rw [List.length_take]; omega
  refine ⟨rfl, ?_, ?_, ?_⟩
  · simp only
    rw [List.take_append_of_le_length (by omega), List.take_of_length_le (by omega)]
  · simp only
    rw [List.drop_append_of_le_length (by omega), List.drop_of_length_le (by omega),
      List.nil_append]
  · simp only [List.length_append, List.length_drop, hlen]
    omega

/-- C17: `ReadAt` returns `(0, err)` with an error other than `io.EOF` when
`off < 0`, and `(0, io.EOF)` when `off >= len(data)`, leaving `p` as it was.
Otherwise it returns `n = min(len(p), len(data) - off)`, the first `n`
elements of `p` become `data[off .. off+n)`, the rest of `p` stays, and the
error is `io.EOF` exactly when `n < len(p)` and nil otherwise.  The buffer
`data` is never changed. -/
theorem C17_ReadAt (b : bufferedReaderAt) (p : List UInt8) (off : Int) :
    (b.ReadAt p off).data = b.data ∧
    (off < 0 →
      (b.ReadAt p off).n = 0 ∧ (b.ReadAt p off).p = p ∧
      (b.ReadAt p off).err ≠ none ∧ (b.ReadAt p off).err ≠ some .EOF) ∧
    (off ≥ (b.data.length : Int) →
      (b.ReadAt p off).n = 0 ∧ (b.ReadAt p off).p = p ∧ (b.ReadAt p off).err = some .EOF) ∧
    (0 ≤ off → off < (b.data.length : Int) →
      (b.ReadAt p off).n = ((min p.length (b.data.length - off.toNat) : Nat) : Int) ∧
      (b.ReadAt p off).p.take (min p.length (b.data.length - off.toNat))
        = (b.data.drop off.toNat).take (min p.length (b.data.length - off.toNat)) ∧
      (b.ReadAt p off).p.drop (min p.length (b.data.length - off.toNat))
        = p.drop (min p.length (b.data.length - off.toNat)) ∧
      (b.ReadAt p off).p.length = p.length ∧
      ((b.ReadAt p off).err = some .EOF ↔ (b.ReadAt p off).n < (p.length : Int)) ∧
      ((b.ReadAt p off).err = none ↔ ¬ (b.ReadAt p off).n < (p.length : Int))) := by
  refine ⟨?_, ?_, ?_, ?_⟩
  · unfold bufferedReaderAt.ReadAt
    split
    · rfl
    · split
      · rfl
      · simp only
        split <;> rfl
  · intro h
    unfold bufferedReaderAt.ReadAt
    rw [if_pos h]
    exact ⟨rfl, rfl, by simp, by simp⟩
  · intro h
    have h0 : ¬ off < 0 := by omega
    unfold bufferedReaderAt.ReadAt
    rw [if_neg h0, if_pos h]
    exact ⟨rfl, rfl, rfl⟩
  · intro h0 hlt
    have h0' : ¬ off < 0 := by omega
    have hlt' : ¬ off ≥ (b.data.length : Int) := by omega
    obtain ⟨c1, c2, c3, c4⟩ := goCopy_spec p (b.data.drop off.toNat)
    rw [List.length_drop] at c1 c2 c3
    unfold bufferedReaderAt.ReadAt
    rw [if_neg h0', if_neg hlt']
    simp only
    split
    · rename_i hn
      rw [c1] at hn
      simp only [c1]
      exact ⟨trivial, c2, c3, c4, iff_of_true trivial hn,
        iff_of_false (by simp) (not_not.2 hn)⟩
    · rename_i hn
      rw [c1] at hn
      simp only [c1]
      exact ⟨trivial, c2, c3, c4, iff_of_false (by simp) hn, iff_of_true trivial hn⟩

/-- C17 on a buffer of five bytes and a destination of three: a read at
offset 3 copies two bytes and reports `io.EOF`, a read at offset 1 fills the
destination, a read at offset -1 copies nothing. -/
theorem C17_ReadAt_witness :
    (⟨[1, 2, 3, 4, 5], 0⟩ : bufferedReaderAt).ReadAt [0, 0, 0] 3
      = ⟨2, some .EOF, [4, 5, 0], [1, 2, 3, 4, 5]⟩ ∧
    (⟨[1, 2, 3, 4, 5], 0⟩ : bufferedReaderAt).ReadAt [0, 0, 0] 1
      = ⟨3, none, [2, 3, 4], [1, 2, 3, 4, 5]⟩ ∧
    ((⟨[1, 2, 3, 4, 5], 0⟩ : bufferedReaderAt).ReadAt [0, 0, 0] (-1)).n = 0 :=
  ⟨by decide, by decide,
    ((C17_ReadAt ⟨[1, 2, 3, 4, 5], 0⟩ [0, 0, 0] (-1)).2.1 (by decide)).1⟩

end documentloaders

namespace textsplitter

/-! ### C13 and C14: the two worked examples -/

theorem countTokenizer_length (n : Nat) (text : String) (allowed disallowed : List String) :
    ((countTokenizer n).Encode text allowed disallowed).length = n := by
  simp [countTokenizer]

/-- C13: with the defaults of `NewTokenSplitter` (ChunkSize 512, ChunkOverlap
100) and a text of exactly 1024 tokens, `splitText` produces exactly three
chunks; their windows start at the token offsets 0, 412 and 824, and the last
window is `[824, 1024)` with 200 tokens. -/
theorem C13_default_example (text : String) (tk : Tiktoken) (fuel : Nat)
    (hlen : (tk.Encode text NewTokenSplitter.AllowedSpecial
      NewTokenSplitter.DisallowedSpecial).length = 1024)
    (hfuel : 3 ≤ fuel) :
    NewTokenSplitter.ChunkSize = 512 ∧ NewTokenSplitter.ChunkOverlap = 100 ∧
    ∃ run chunks, splitText NewTokenSplitter text tk fuel = .ret run ∧
      run.splits = some chunks ∧ chunks.length = 3 ∧
      run.windows.map (fun w => (w.startIdx, w.curIdx)) = [(0, 512), (412, 924), (824, 1024)] ∧
      run.windows.map (fun w => w.chunkIds.length) = [512, 512, 200] := by
  have hv : Valid NewTokenSplitter := by decide
  have hf : Fits NewTokenSplitter (tk.Encode text NewTokenSplitter.AllowedSpecial
      NewTokenSplitter.DisallowedSpecial).length := by
    rw [hlen]; decide
  have hk : windowCount NewTokenSplitter 1024 = 3 := by decide
  have h := splitText_valid NewTokenSplitter text tk fuel hv hf (by rw [hlen, hk]; exact hfuel)
  refine ⟨rfl, rfl, _, _, h, rfl, ?_, ?_, ?_⟩
  · rw [List.length_map, length_allWindows, hlen, hk]
  · have hs : stepOf NewTokenSplitter = 412 := by decide
    have hc : NewTokenSplitter.ChunkSize = 512 := rfl
    simp [allWindows, hlen, hk, List.range_succ, windowAt, hs, hc]
  · have hs : stepOf NewTokenSplitter = 412 := by decide
    have hc : NewTokenSplitter.ChunkSize = 512 := rfl
    simp [allWindows, hlen, hk, List.range_succ, windowAt, hs, hc]

/-- C13 at a tokenizer that gives every text 1024 tokens. -/
theorem C13_default_example_witness :
    ∃ run chunks, splitText NewTokenSplitter "doc" (countTokenizer 1024) 3 = .ret run ∧
      run.splits = some chunks ∧ chunks.length = 3 ∧
      run.windows.map (fun w => (w.startIdx, w.curIdx)) = [(0, 512), (412, 924), (824, 1024)] ∧
      run.windows.map (fun w => w.chunkIds.length) = [512, 512, 200] :=
  (C13_default_example "doc" (countTokenizer 1024) 3
    (countTokenizer_length 1024 _ _ _)
    (le_refl 3)).2.2

/-- C14: with ChunkSize 10, ChunkOverlap 0 and a text of exactly 25 tokens,
`splitText` produces exactly 3 chunks; their windows are `[0, 10)`,
`[10, 20)` and `[20, 25)`, with 10, 10 and 5 tokens, and each window ends
before every later one starts, so no two of them share a token position. -/
theorem C14_disjoint_example (s : TokenSplitter) (text : String) (tk : Tiktoken) (fuel : Nat)
    (hc : s.ChunkSize = 10) (ho : s.ChunkOverlap = 0)
    (hlen : (tk.Encode text s.AllowedSpecial s.DisallowedSpecial).length = 25)
    (hfuel : 3 ≤ fuel) :
    ∃ run chunks, splitText s text tk fuel = .ret run ∧
      run.splits = some chunks ∧ chunks.length = 3 ∧
      run.windows.map (fun w => (w.startIdx, w.curIdx)) = [(0, 10), (10, 20), (20, 25)] ∧
      run.windows.map (fun w => w.chunkIds.length) = [10, 10, 5] ∧
      run.windows.Pairwise (fun w w' => w.curIdx ≤ w'.startIdx) := by
  have hv : Valid s := by unfold Valid; omega
  have hf : Fits s (tk.Encode text s.AllowedSpecial s.DisallowedSpecial).length := by
    unfold Fits maxInt; omega
  have hs : stepOf s = 10 := by unfold stepOf; rw [hc, ho]; rfl
  have hk : windowCount s 25 = 3 := by unfold windowCount; rw [hs]
  have h := splitText_valid s text tk fuel hv hf (by rw [hlen, hk]; exact hfuel)
  refine ⟨_, _, h, rfl, ?_, ?_, ?_, ?_⟩
  · rw [List.length_map, length_allWindows, hlen, hk]
  · simp [allWindows, hlen, hk, List.range_succ, windowAt, hs, hc]
  · simp [allWindows, hlen, hk, List.range_succ, windowAt, hs, hc]
  · simp [allWindows, hlen, hk, List.range_succ, windowAt, hs, hc]

/-- C14 at a tokenizer that gives every text 25 tokens. -/
theorem C14_disjoint_example_witness :
    ∃ run chunks, splitText ⟨10, 0, "m", "", [], []⟩ "doc" (countTokenizer 25) 3 = .ret run ∧
      run.splits = some chunks ∧ chunks.length = 3 ∧
      run.windows.map (fun w => (w.startIdx, w.curIdx)) = [(0, 10), (10, 20), (20, 25)] ∧
      run.windows.map (fun w => w.chunkIds.length) = [10, 10, 5] ∧
      run.windows.Pairwise (fun w w' => w.curIdx ≤ w'.startIdx) :=
  C14_disjoint_example ⟨10, 0, "m", "", [], []⟩ "doc" (countTokenizer 25) 3 rfl rfl
    (countTokenizer_length 25 _ _ _)
    (le_refl 3)

/-! ### The fields that `splitText` reads -/

theorem splitLoop_congr (s s' : TokenSplitter) (tk : Tiktoken) (inputIds : List Int)
    (hc : s'.ChunkSize = s.ChunkSize) (ho : s'.ChunkOverlap = s.ChunkOverlap) :
    ∀ (fuel : Nat) (st : LoopState),
      splitLoop s' tk inputIds fuel st = splitLoop s tk inputIds fuel st := by
  intro fuel
  induction fuel with
  | zero => intro st; rfl
  | succ fuel ih =>
    intro st
    simp only [splitLoop, hc, ho, ih]

/-- The outcome of `splitText` depends on the splitter only through its
sizes and its special-token lists. -/
theorem splitText_congr (s s' : TokenSplitter) (text : String) (tk : Tiktoken) (fuel : Nat)
    (hc : s'.ChunkSize = s.ChunkSize) (ho : s'.ChunkOverlap = s.ChunkOverlap)
    (ha : s'.AllowedSpecial = s.AllowedSpecial)
    (hd : s'.DisallowedSpecial = s.DisallowedSpecial) :
    splitText s' text tk fuel = splitText s text tk fuel := by
  unfold splitText
  simp only [hc, ha, hd, splitLoop_congr s s' tk _ hc ho]

/-! ### The windowing loop when the overlap may be negative -/

theorem stepOf_cast_of_advancing {s : TokenSplitter} (ha : Advancing s) :
    ((stepOf s : Nat) : Int) = s.ChunkSize - s.ChunkOverlap := by
  unfold Advancing at ha
  unfold stepOf
  omega

theorem stepOf_pos_of_advancing {s : TokenSplitter} (ha : Advancing s) : 0 < stepOf s := by
  have := stepOf_cast_of_advancing ha
  unfold Advancing at ha
  omega

theorem lt_windowCount_iff_of_pos {s : TokenSplitter} (hpos : 0 < stepOf s) (n j : Nat) :
    j < windowCount s n ↔ j * stepOf s < n := by
  unfold windowCount
  rw [Nat.lt_iff_add_one_le, Nat.le_div_iff_mul_le hpos, Nat.add_mul, Nat.one_mul]
  omega

theorem windowCount_le_of_pos {s : TokenSplitter} (hpos : 0 < stepOf s) (n : Nat) :
    windowCount s n ≤ n := by
  by_contra h
  have h1 : n < windowCount s n := by omega
  have h2 := (lt_windowCount_iff_of_pos hpos n n).1 h1
  have h3 : n * 1 ≤ n * stepOf s := Nat.mul_le_mul_left n hpos
  omega

theorem windowCount_cast_of_advancing {s : TokenSplitter} (ha : Advancing s) (n : Nat) :
    ((windowCount s n : Nat) : Int) = ceilDiv (n : Int) (s.ChunkSize - s.ChunkOverlap) := by
  have hpos := stepOf_pos_of_advancing ha
  rw [← stepOf_cast_of_advancing ha]
  unfold windowCount ceilDiv
  have h : ((n : Int) + (stepOf s : Int) - 1) = ((n + stepOf s - 1 : Nat) : Int) := by
    omega
  rw [h]
  norm_cast

/-! ### C19: without overlap the windows partition the tokens -/

theorem decode_nil_of_distrib (decode : List Int → String)
    (hd : ∀ a b, decode (a ++ b) = decode a ++ decode b) : decode [] = "" := by
  have h := hd [] []
  rw [List.append_nil] at h
  have hl := congrArg String.length h
  rw [String.length_append] at hl
  apply String.ext
  have h0 : (decode []).data.length = 0 := by
    have : (decode []).length = (decode []).data.length := rfl
    omega
  exact List.length_eq_zero.1 h0

theorem join_map_decode (decode : List Int → String)
    (hd : ∀ a b, decode (a ++ b) = decode a ++ decode b) (l : List (List Int)) :
    String.join (l.map decode) = decode l.flatten := by
  apply String.ext
  rw [String.data_join]
  induction l with
  | nil => simp [decode_nil_of_distrib decode hd]
  | cons x rest ih =>
    simp only [List.map_cons, List.flatten_cons, hd, String.data_append, ih]

theorem take_append_window {α : Type} (l : List α) (a b : Nat) (hab : a ≤ b) :
    l.take a ++ (l.take b).drop a = l.take b := by
  have h : l.take a = (l.take b).take a := by
    rw [List.take_take, Nat.min_eq_left hab]
  rw [h, List.take_append_drop]

theorem take_min_length {α : Type} (l : List α) (a : Nat) :
    l.take (min a l.length) = l.take a := by
  rcases le_total a l.length with h | h
  · rw [Nat.min_eq_left h]
  · rw [Nat.min_eq_right h, List.take_of_length_le (le_refl _), List.take_of_length_le h]

theorem windowAt_chunkIds_no_overlap {s : TokenSplitter} (hv : Valid s)
    (ho : s.ChunkOverlap = 0) (inputIds : List Int) (j : Nat) :
    (windowAt s inputIds j).chunkIds
      = (inputIds.take (j * stepOf s + stepOf s)).drop (j * stepOf s) := by
  have hcast := stepOf_cast hv
  rw [ho, sub_zero] at hcast
  rw [← take_min_length]
  unfold windowAt
  simp only
  rw [← hcast]
  have e0 : (j : Int) * (stepOf s : Int) = ((j * stepOf s : Nat) : Int) := by
    push_cast; ring
  rw [e0]
  generalize j * stepOf s = a
  congr 2
  omega

theorem flatten_windows {s : TokenSplitter} (hv : Valid s) (ho : s.ChunkOverlap = 0)
    (inputIds : List Int) :
    ∀ j : Nat, ((List.range j).map (fun i => (windowAt s inputIds i).chunkIds)).flatten
      = inputIds.take (j * stepOf s) := by
  intro j
  induction j with
  | zero => simp
  | succ j ih =>
    rw [List.range_succ, List.map_append, List.flatten_append, ih, List.map_cons, List.map_nil,
      List.flatten_cons, List.flatten_nil, List.append_nil, windowAt_chunkIds_no_overlap hv ho,
      take_append_window _ _ _ (Nat.le_add_right _ _), Nat.add_mul, Nat.one_mul]

/-- C19: for ChunkOverlap 0 and ChunkSize > 0 the token windows of
`splitText`, concatenated in output order, are the whole token sequence;
hence, when `Decode` distributes over concatenation and inverts `Encode` on
the text, the concatenation of the returned chunks is the text. -/
theorem C19_windows_partition (s : TokenSplitter) (text : String) (tk : Tiktoken) (fuel : Nat)
    (inputIds : List Int)
    (hids : tk.Encode text s.AllowedSpecial s.DisallowedSpecial = inputIds)
    (ho : s.ChunkOverlap = 0) (hc : 0 < s.ChunkSize)
    (hf : Fits s inputIds.length) (hfuel : inputIds.length ≤ fuel) :
    ∃ run chunks, splitText s text tk fuel = .ret run ∧ run.splits = some chunks ∧
      chunks = run.windows.map (fun w => tk.Decode w.chunkIds) ∧
      (run.windows.map (fun w => w.chunkIds)).flatten = inputIds ∧
      ((∀ a b, tk.Decode (a ++ b) = tk.Decode a ++ tk.Decode b) →
        tk.Decode inputIds = text → String.join chunks = text) := by
  subst hids
  have hv : Valid s := by unfold Valid; omega
  have hfuel' := le_trans (windowCount_le hv _) hfuel
  have hflat : ((allWindows s (tk.Encode text s.AllowedSpecial s.DisallowedSpecial)).map
      (fun w => w.chunkIds)).flatten = tk.Encode text s.AllowedSpecial s.DisallowedSpecial := by
    unfold allWindows
    rw [List.map_map]
    have h := flatten_windows hv ho (tk.Encode text s.AllowedSpecial s.DisallowedSpecial)
      (windowCount s (tk.Encode text s.AllowedSpecial s.DisallowedSpecial).length)
    have hge : ¬ windowCount s (tk.Encode text s.AllowedSpecial s.DisallowedSpecial).length
        * stepOf s < (tk.Encode text s.AllowedSpecial s.DisallowedSpecial).length := by
      rw [← lt_windowCount_iff hv]; omega
    rw [List.take_of_length_le (by omega)] at h
    exact h
  refine ⟨_, _, splitText_valid s text tk fuel hv hf hfuel', rfl, rfl, hflat, ?_⟩
  intro hd hinv
  have hj := join_map_decode tk.Decode hd
    ((allWindows s (tk.Encode text s.AllowedSpecial s.DisallowedSpecial)).map
      (fun w => w.chunkIds))
  rw [List.map_map, hflat, hinv] at hj
  exact hj

theorem charTokenizer_decode_append (a b : List Int) :
    charTokenizer.Decode (a ++ b) = charTokenizer.Decode a ++ charTokenizer.Decode b := by
  apply String.ext
  simp [charTokenizer]

/-- C19 at ChunkSize 3, ChunkOverlap 0 and the 8 tokens of "abcdefgh", with
the one-token-per-character tokenizer. -/
theorem C19_windows_partition_witness :
    ∃ run chunks, splitText ⟨3, 0, "m", "", [], []⟩ "abcdefgh" charTokenizer 8 = .ret run ∧
      run.splits = some chunks ∧
      (run.windows.map (fun w => w.chunkIds)).flatten = [97, 98, 99, 100, 101, 102, 103, 104] ∧
      String.join chunks = "abcdefgh" :=
  have h := C19_windows_partition ⟨3, 0, "m", "", [], []⟩ "abcdefgh" charTokenizer 8
    [97, 98, 99, 100, 101, 102, 103, 104] (by decide) rfl (by decide) (by decide) (by decide)
  h.elim fun run h1 => h1.elim fun chunks h2 =>
    ⟨run, chunks, h2.1, h2.2.1, h2.2.2.2.1,
      h2.2.2.2.2 charTokenizer_decode_append (by decide)⟩

end textsplitter

namespace textsplitter

/-! ### The windowing loop as long as no index sum overflows -/

theorem advancing_of_valid {s : TokenSplitter} (hv : Valid s) : Advancing s := by
  unfold Valid at hv
  unfold Advancing
  omega

theorem stepNoOverflow_of_valid {s : TokenSplitter} (hv : Valid s) {n : Nat}
    (hr : NoOverflow s n) : StepNoOverflow s n := by
  intro i hi
  have h := hr i hi
  unfold Valid at hv
  omega

theorem noOverflow_of_fits {s : TokenSplitter} {n : Nat} (hf : Fits s n) :
    NoOverflow s n := by
  intro i hi
  unfold Fits at hf
  omega

theorem splitLoop_inRange {s : TokenSplitter} (tk : Tiktoken) (inputIds : List Int)
    (ha : Advancing s) (hr : NoOverflow s inputIds.length)
    (hr2 : StepNoOverflow s inputIds.length) :
    ∀ (fuel j : Nat) (st : LoopState) (l : List String),
      j ≤ windowCount s inputIds.length →
      windowCount s inputIds.length - j ≤ fuel →
      st.splits = some l →
      st.startIdx = (j : Int) * (stepOf s : Int) →
      (j * stepOf s < inputIds.length →
        st.curIdx = min ((j : Int) * (stepOf s : Int) + s.ChunkSize) (inputIds.length : Int)) →
      ∃ st', splitLoop s tk inputIds fuel st = .ret st' ∧
        st'.splits = some (l ++ (List.range' j (windowCount s inputIds.length - j)).map
          (fun i => tk.Decode (windowAt s inputIds i).chunkIds)) ∧
        st'.windows = st.windows ++
          (List.range' j (windowCount s inputIds.length - j)).map (windowAt s inputIds) := by
  have hpos := stepOf_pos_of_advancing ha
  have hcast := stepOf_cast_of_advancing ha
  have hiff := lt_windowCount_iff_of_pos hpos inputIds.length
  unfold Advancing at ha
  unfold NoOverflow maxInt at hr
  unfold StepNoOverflow maxInt at hr2
  rw [← hcast] at hr hr2
  intro fuel
  induction fuel with
  | zero =>
    intro j st l hj hfuel hsp hst _
    have hjk : j = windowCount s inputIds.length := by omega
    have hnot : ¬ j * stepOf s < inputIds.length := by
      rw [← hiff]; omega
    have hnot' : ¬ st.startIdx < (inputIds.length : Int) := by
      rw [hst]; intro h; apply hnot; exact_mod_cast h
    refine ⟨st, ?_, ?_, ?_⟩
    · simp [splitLoop, hnot']
    · simp [hjk, hsp]
    · simp [hjk]
  | succ fuel ih =>
    intro j st l hj hfuel hsp hst hcur
    by_cases hlt : j * stepOf s < inputIds.length
    · have hjk : j < windowCount s inputIds.length := (hiff j).2 hlt
      have hlt' : st.startIdx < (inputIds.length : Int) := by
        rw [hst]; exact_mod_cast hlt
      have hcur' := hcur hlt
      have hlo : (0 : Int) ≤ (j : Int) * (stepOf s : Int) := by positivity
      have hltI : (j : Int) * (stepOf s : Int) < (inputIds.length : Int) := by exact_mod_cast hlt
      have h0lt : ((0 : Nat) : Int) * (stepOf s : Int) < (inputIds.length : Int) := by
        simp only [Nat.cast_zero, zero_mul]; omega
      have hstepmax := hr2 0 h0lt
      simp only [Nat.cast_zero, zero_mul, zero_add] at hstepmax
      have hjstep := hr2 j hltI
      have hsl : sliceExpr inputIds st.startIdx st.curIdx
          = some (windowAt s inputIds j).chunkIds := by
        unfold sliceExpr windowAt
        rw [hst, hcur']
        rw [if_pos]
        refine ⟨hlo, ?_, ?_⟩
        · rw [le_min_iff]; constructor <;> omega
        · exact min_le_right _ _
      have hstep : wrapInt (s.ChunkSize - s.ChunkOverlap) = (stepOf s : Int) := by
        rw [← hcast]; apply wrapInt_of_isInt; unfold IsInt minInt maxInt; omega
      have hnext : wrapInt (st.startIdx + wrapInt (s.ChunkSize - s.ChunkOverlap))
          = ((j + 1 : Nat) : Int) * (stepOf s : Int) := by
        rw [hstep, hst]
        have : ((j + 1 : Nat) : Int) * (stepOf s : Int)
            = (j : Int) * (stepOf s : Int) + (stepOf s : Int) := by push_cast; ring
        rw [this]
        apply wrapInt_of_isInt; unfold IsInt minInt maxInt; omega
      have hwin : (⟨st.startIdx, st.curIdx, (windowAt s inputIds j).chunkIds⟩ : Window)
          = windowAt s inputIds j := by
        rw [hst, hcur']; rfl
      simp only [splitLoop, if_pos hlt', hsl, hnext, hsp, Slice.append, hwin]
      obtain ⟨st', h1, h2, h3⟩ := ih (j + 1)
        { splits := some (l ++ [tk.Decode (windowAt s inputIds j).chunkIds])
          startIdx := ((j + 1 : Nat) : Int) * (stepOf s : Int)
          curIdx :=
            if wrapInt (((j + 1 : Nat) : Int) * (stepOf s : Int) + s.ChunkSize)
                > (inputIds.length : Int) then (inputIds.length : Int)
            else wrapInt (((j + 1 : Nat) : Int) * (stepOf s : Int) + s.ChunkSize)
          windows := st.windows ++ [windowAt s inputIds j] }
        (l ++ [tk.Decode (windowAt s inputIds j).chunkIds])
        (by omega) (by omega) rfl rfl
        (by
          intro hlt2
          have hlt2I : ((j + 1 : Nat) : Int) * (stepOf s : Int) < (inputIds.length : Int) := by
            exact_mod_cast hlt2
          have hnn : (0 : Int) ≤ ((j + 1 : Nat) : Int) * (stepOf s : Int) := by positivity
          have hmax := hr (j + 1) hlt2I
          have hw : wrapInt (((j + 1 : Nat) : Int) * (stepOf s : Int) + s.ChunkSize)
              = ((j + 1 : Nat) : Int) * (stepOf s : Int) + s.ChunkSize := by
            apply wrapInt_of_isInt; unfold IsInt minInt maxInt; omega
          simp only [hw]
          split
          · rw [min_eq_right]; omega
          · rw [min_eq_left]; omega)
      refine ⟨st', h1, ?_, ?_⟩
      · rw [h2]
        have : windowCount s inputIds.length - j = (windowCount s inputIds.length - (j + 1)) + 1 := by
          omega
        rw [this, List.range'_succ]
        simp
      · rw [h3]
        have : windowCount s inputIds.length - j = (windowCount s inputIds.length - (j + 1)) + 1 := by
          omega
        rw [this, List.range'_succ]
        simp
    · have hjk : j = windowCount s inputIds.length := by
        have := (hiff j).not.2 hlt
        omega
      have hnot' : ¬ st.startIdx < (inputIds.length : Int) := by
        rw [hst]; intro h; apply hlt; exact_mod_cast h
      refine ⟨st, ?_, ?_, ?_⟩
      · simp [splitLoop, hnot']
      · simp [hjk, hsp]
      · simp [hjk]

/-- With `ChunkSize >= 0`, a positive step and no overflowing index sum,
`splitText` returns once the fuel covers the number of windows; its chunks
are the decodings of `allWindows`, and the loop ran once per window. -/
theorem splitText_inRange (s : TokenSplitter) (text : String) (tk : Tiktoken) (fuel : Nat)
    (ha : Advancing s)
    (hr : NoOverflow s (tk.Encode text s.AllowedSpecial s.DisallowedSpecial).length)
    (hr2 : StepNoOverflow s (tk.Encode text s.AllowedSpecial s.DisallowedSpecial).length)
    (hfuel : windowCount s (tk.Encode text s.AllowedSpecial s.DisallowedSpecial).length ≤ fuel) :
    splitText s text tk fuel = .ret
      ⟨some ((allWindows s (tk.Encode text s.AllowedSpecial s.DisallowedSpecial)).map
          (fun w => tk.Decode w.chunkIds)),
        [text],
        allWindows s (tk.Encode text s.AllowedSpecial s.DisallowedSpecial)⟩ := by
  obtain ⟨st', h1, h2, h3⟩ := splitLoop_inRange tk
    (tk.Encode text s.AllowedSpecial s.DisallowedSpecial) ha hr hr2 fuel 0
    ⟨some [], 0,
      if wrapInt (0 + s.ChunkSize)
          < ((tk.Encode text s.AllowedSpecial s.DisallowedSpecial).length : Int)
      then wrapInt (0 + s.ChunkSize)
      else ((tk.Encode text s.AllowedSpecial s.DisallowedSpecial).length : Int), []⟩
    [] (Nat.zero_le _) (by omega) rfl (by simp)
    (by
      intro hN
      have h0 := hr 0 (by simp only [Nat.cast_zero, zero_mul]; omega)
      have hw : wrapInt (0 + s.ChunkSize) = s.ChunkSize := by
        rw [zero_add]
        apply wrapInt_of_isInt
        unfold maxInt at h0
        unfold Advancing at ha
        unfold IsInt minInt maxInt
        omega
      simp only [Nat.cast_zero, zero_mul, zero_add] at hw ⊢
      simp only [hw]
      split
      · rw [min_eq_left]; omega
      · rw [min_eq_right]; omega)
  unfold splitText
  simp only [h1, h2, h3]
  simp [allWindows, List.range_eq_range', List.map_map, Function.comp_def]

/-- The same for a valid configuration, where the step is at most
`ChunkSize`. -/
theorem splitText_valid_inRange (s : TokenSplitter) (text : String) (tk : Tiktoken) (fuel : Nat)
    (hv : Valid s)
    (hr : NoOverflow s (tk.Encode text s.AllowedSpecial s.DisallowedSpecial).length)
    (hfuel : (tk.Encode text s.AllowedSpecial s.DisallowedSpecial).length ≤ fuel) :
    splitText s text tk fuel = .ret
      ⟨some ((allWindows s (tk.Encode text s.AllowedSpecial s.DisallowedSpecial)).map
          (fun w => tk.Decode w.chunkIds)),
        [text],
        allWindows s (tk.Encode text s.AllowedSpecial s.DisallowedSpecial)⟩ :=
  splitText_inRange s text tk fuel (advancing_of_valid hv) hr (stepNoOverflow_of_valid hv hr)
    (le_trans (windowCount_le hv _) hfuel)

/-- With a resolved tokenizer, a valid configuration and no overflowing index
sum, `SplitText` returns the chunks of `splitText` and a nil error. -/
theorem SplitText_valid_inRange (lib : TiktokenLib) (s : TokenSplitter) (text : String)
    (tk : Tiktoken) (fuel : Nat) (hres : resolveTokenizer lib s = .ok tk) (hv : Valid s)
    (hr : NoOverflow s (tk.Encode text s.AllowedSpecial s.DisallowedSpecial).length)
    (hfuel : (tk.Encode text s.AllowedSpecial s.DisallowedSpecial).length ≤ fuel) :
    SplitText lib s text fuel = .ret
      ⟨some ((allWindows s (tk.Encode text s.AllowedSpecial s.DisallowedSpecial)).map
          (fun w => tk.Decode w.chunkIds)),
        none, [text],
        allWindows s (tk.Encode text s.AllowedSpecial s.DisallowedSpecial)⟩ := by
  rw [SplitText_eq, hres]
  simp only [splitText_valid_inRange s text tk fuel hv hr hfuel]

/-! ### C1: number of chunks -/

/-- C1 (counterexample): with ChunkSize 4, ChunkOverlap 2 and the text "abcd"
of 4 tokens, `splitText` returns the 2 chunks "abcd" and "cd", while the
claimed count `ceil((4 - 2) / (4 - 2))` is 1.  And with ChunkSize the largest
`int`, ChunkOverlap one less and the 3 tokens of "abc", the sum
`startIdx + ChunkSize = 1 + MaxInt64` wraps to the smallest `int`, the slice
`inputIds[1:MinInt64]` panics and no chunk is returned at all. -/
theorem C1_count_counterexample :
    Valid ⟨4, 2, "m", "", [], []⟩ ∧
    (charTokenizer.Encode "abcd" [] []).length = 4 ∧
    splitText ⟨4, 2, "m", "", [], []⟩ "abcd" charTokenizer 4
      = .ret ⟨some ["abcd", "cd"], ["abcd"],
          [⟨0, 4, [97, 98, 99, 100]⟩, ⟨2, 4, [99, 100]⟩]⟩ ∧
    ceilDiv (4 - 2) (4 - 2) = 1 ∧
    ((Slice.len (some ["abcd", "cd"]) : Nat) : Int) ≠ ceilDiv (4 - 2) (4 - 2) ∧
    Valid ⟨9223372036854775807, 9223372036854775806, "m", "", [], []⟩ ∧
    (charTokenizer.Encode "abc" [] []).length = 3 ∧
    splitText ⟨9223372036854775807, 9223372036854775806, "m", "", [], []⟩ "abc" charTokenizer 3
      = .panic := by
  decide

/-- C1 (amended): for a valid configuration and a text of `N` tokens (in
particular `N > 0`) such that no index sum of the loop overflows (every
window start `a = i * (ChunkSize - ChunkOverlap)` below `N` has
`a + ChunkSize` within the largest `int`), `splitText` returns exactly
`ceil(N / (ChunkSize - ChunkOverlap))` chunks, and so does `SplitText` when
the tokenizer resolves. -/
theorem C1_chunk_count (s : TokenSplitter) (text : String) (tk : Tiktoken) (fuel : Nat)
    (hv : Valid s)
    (hr : NoOverflow s (tk.Encode text s.AllowedSpecial s.DisallowedSpecial).length)
    (hfuel : (tk.Encode text s.AllowedSpecial s.DisallowedSpecial).length ≤ fuel) :
    (∃ run, splitText s text tk fuel = .ret run ∧
      ((run.splits.len : Nat) : Int)
        = ceilDiv ((tk.Encode text s.AllowedSpecial s.DisallowedSpecial).length : Int)
            (s.ChunkSize - s.ChunkOverlap)) ∧
    (∀ lib : TiktokenLib, resolveTokenizer lib s = .ok tk →
      ∃ res, SplitText lib s text fuel = .ret res ∧ res.err = none ∧
        ((res.texts.len : Nat) : Int)
          = ceilDiv ((tk.Encode text s.AllowedSpecial s.DisallowedSpecial).length : Int)
              (s.ChunkSize - s.ChunkOverlap)) := by
  constructor
  · refine ⟨_, splitText_valid_inRange s text tk fuel hv hr hfuel, ?_⟩
    simp only [Slice.len, List.length_map, length_allWindows]
    exact windowCount_cast hv _
  · intro lib hres
    refine ⟨_, SplitText_valid_inRange lib s text tk fuel hres hv hr hfuel, rfl, ?_⟩
    simp only [Slice.len, List.length_map, length_allWindows]
    exact windowCount_cast hv _

/-- C1 (amended) at ChunkSize 4, ChunkOverlap 2 and the 4 tokens of "abcd":
2 chunks; and at ChunkSize the largest `int`, ChunkOverlap 0 and the 3 tokens
of "abc", where the only window starts at 0: 1 chunk. -/
theorem C1_chunk_count_witness :
    Valid ⟨4, 2, "m", "", [], []⟩ ∧
    0 < (charTokenizer.Encode "abcd" [] []).length ∧
    (∃ run, splitText ⟨4, 2, "m", "", [], []⟩ "abcd" charTokenizer 4 = .ret run ∧
      ((run.splits.len : Nat) : Int) = ceilDiv 4 (4 - 2)) ∧
    (∃ run, splitText ⟨9223372036854775807, 0, "m", "", [], []⟩ "abc" charTokenizer 3
        = .ret run ∧
      ((run.splits.len : Nat) : Int) = ceilDiv 3 (9223372036854775807 - 0)) :=
  ⟨by decide, by decide,
    (C1_chunk_count ⟨4, 2, "m", "", [], []⟩ "abcd" charTokenizer 4
      (by decide) (noOverflow_of_fits (by decide)) (by decide)).1,
    (C1_chunk_count ⟨9223372036854775807, 0, "m", "", [], []⟩ "abc" charTokenizer 3
      (by decide)
      (by
        intro i hi
        have h3 : ((charTokenizer.Encode "abc" [] []).length : Int) = 3 := by decide
        simp only [h3] at hi
        unfold maxInt
        simp only at hi ⊢
        omega)
      (by decide)).1⟩

/-! ### C3: the token range of each chunk -/

/-- C3 (counterexample): ChunkSize the largest `int`, ChunkOverlap one less
(a valid configuration with step 1) and the 2 tokens of "ab".  The claim
gives chunk 1 the tokens `[1, 2)`, but after the first window the sum
`1 + ChunkSize` wraps to the smallest `int`, the slice `inputIds[1:MinInt64]`
panics and `splitText` returns no chunk, whatever the fuel. -/
theorem C3_range_counterexample :
    Valid ⟨9223372036854775807, 9223372036854775806, "m", "", [], []⟩ ∧
    (charTokenizer.Encode "ab" [] []).length = 2 ∧
    ((1 : Nat) : Int) * (9223372036854775807 - 9223372036854775806) < 2 ∧
    wrapInt (1 + 9223372036854775807) = -9223372036854775808 ∧
    (∀ k : Nat,
      splitText ⟨9223372036854775807, 9223372036854775806, "m", "", [], []⟩ "ab" charTokenizer
        (k + 2) = .panic) :=
  ⟨by decide, by decide, by decide, by decide, fun _ => rfl⟩

/-- C3 (amended): for a valid configuration and a token sequence of length
`N` such that no index sum of the loop overflows (every window start
`a = i * (ChunkSize - ChunkOverlap)` below `N` has `a + ChunkSize` within the
largest `int`), the chunk with 0-based index `i` is the decoding of the
tokens with indices from `i * (ChunkSize - ChunkOverlap)` up to (excluding)
`min (i * (ChunkSize - ChunkOverlap) + ChunkSize) N`, in their order, for
every `i` with `i * (ChunkSize - ChunkOverlap) < N`; there are no other
chunks. -/
theorem C3_chunk_ranges (s : TokenSplitter) (text : String) (tk : Tiktoken) (fuel : Nat)
    (inputIds : List Int)
    (hids : tk.Encode text s.AllowedSpecial s.DisallowedSpecial = inputIds)
    (hv : Valid s) (hr : NoOverflow s inputIds.length) (hfuel : inputIds.length ≤ fuel) :
    ∃ run chunks, splitText s text tk fuel = .ret run ∧ run.splits = some chunks ∧
      (∀ i : Nat, (i : Int) * (s.ChunkSize - s.ChunkOverlap) < (inputIds.length : Int) →
        chunks[i]? = some (tk.Decode
          ((inputIds.take
              (min ((i : Int) * (s.ChunkSize - s.ChunkOverlap) + s.ChunkSize)
                (inputIds.length : Int)).toNat).drop
            ((i : Int) * (s.ChunkSize - s.ChunkOverlap)).toNat))) ∧
      (∀ i : Nat, i < chunks.length ↔
        (i : Int) * (s.ChunkSize - s.ChunkOverlap) < (inputIds.length : Int)) := by
  subst hids
  refine ⟨_, _, splitText_valid_inRange s text tk fuel hv hr hfuel, rfl, ?_, ?_⟩
  · intro i hi
    have hik := (lt_windowCount_iff_int hv _ i).2 hi
    rw [List.getElem?_map, getElem?_allWindows, if_pos hik, Option.map_some',
      windowAt_chunkIds hv]
  · intro i
    rw [List.length_map, length_allWindows]
    exact lt_windowCount_iff_int hv _ i

/-- C3 (amended) at ChunkSize 4, ChunkOverlap 1 and the 8 tokens of
"abcdefgh". -/
theorem C3_chunk_ranges_witness :
    ∃ run chunks, splitText ⟨4, 1, "m", "", [], []⟩ "abcdefgh" charTokenizer 8 = .ret run ∧
      run.splits = some chunks ∧
      (∀ i : Nat, (i : Int) * (4 - 1) < ((8 : Nat) : Int) →
        chunks[i]? = some (charTokenizer.Decode
          ((([97, 98, 99, 100, 101, 102, 103, 104] : List Int).take
              (min ((i : Int) * (4 - 1) + 4) ((8 : Nat) : Int)).toNat).drop
            ((i : Int) * (4 - 1)).toNat))) ∧
      (∀ i : Nat, i < chunks.length ↔ (i : Int) * (4 - 1) < ((8 : Nat) : Int)) :=
  C3_chunk_ranges ⟨4, 1, "m", "", [], []⟩ "abcdefgh" charTokenizer 8
    [97, 98, 99, 100, 101, 102, 103, 104] (by decide) (by decide)
    (noOverflow_of_fits (by decide)) (by decide)

/-! ### C5: the last window and coverage -/

/-- C5 (counterexample): ChunkSize the largest `int`, ChunkOverlap two less
(a valid configuration with step 2) and the 3 tokens of "abc".  After the
window `[0, 3)` the sum `2 + ChunkSize` wraps to a negative number, the slice
`inputIds[2:MinInt64+1]` panics and `splitText` returns nothing: there is no
last window to end at token index 3. -/
theorem C5_last_window_counterexample :
    Valid ⟨9223372036854775807, 9223372036854775805, "m", "", [], []⟩ ∧
    (charTokenizer.Encode "abc" [] []).length = 3 ∧
    wrapInt (2 + 9223372036854775807) = -9223372036854775807 ∧
    sliceExpr ([97, 98, 99] : List Int) 2 (-9223372036854775807) = none ∧
    (∀ k : Nat,
      splitText ⟨9223372036854775807, 9223372036854775805, "m", "", [], []⟩ "abc" charTokenizer
        (k + 2) = .panic) :=
  ⟨by decide, by decide, by decide, by decide, fun _ => rfl⟩

/-- C5 (amended): for a valid configuration and `N > 0` tokens such that no
index sum of the loop overflows (every window start
`a = i * (ChunkSize - ChunkOverlap)` below `N` has `a + ChunkSize` within the
largest `int`), the last window ends at token index `N` and has at most
`ChunkSize` tokens, and every token index below `N` lies in some window,
which holds that token at the matching position. -/
theorem C5_last_window_and_coverage (s : TokenSplitter) (text : String) (tk : Tiktoken)
    (fuel : Nat) (inputIds : List Int)
    (hids : tk.Encode text s.AllowedSpecial s.DisallowedSpecial = inputIds)
    (hv : Valid s) (hr : NoOverflow s inputIds.length) (hN : 0 < inputIds.length)
    (hfuel : inputIds.length ≤ fuel) :
    ∃ run last, splitText s text tk fuel = .ret run ∧
      run.splits = some (run.windows.map (fun w => tk.Decode w.chunkIds)) ∧
      run.windows.getLast? = some last ∧
      last.curIdx = (inputIds.length : Int) ∧
      (last.chunkIds.length : Int) ≤ s.ChunkSize ∧
      ∀ j : Nat, j < inputIds.length →
        ∃ w ∈ run.windows, w.startIdx ≤ (j : Int) ∧ (j : Int) < w.curIdx ∧
          w.chunkIds[j - w.startIdx.toNat]? = inputIds[j]? := by
  subst hids
  have hpos := stepOf_pos hv
  have hv' := hv
  unfold Valid at hv'
  have hcast := stepOf_cast hv
  have hk : 0 < windowCount s (tk.Encode text s.AllowedSpecial s.DisallowedSpecial).length := by
    rw [lt_windowCount_iff hv]; simpa using hN
  refine ⟨_, windowAt s (tk.Encode text s.AllowedSpecial s.DisallowedSpecial)
    (windowCount s (tk.Encode text s.AllowedSpecial s.DisallowedSpecial).length - 1),
    splitText_valid_inRange s text tk fuel hv hr hfuel, rfl, ?_, ?_,
    windowAt_length_le hv _ _, ?_⟩
  · simp only
    rw [List.getLast?_eq_getElem?, length_allWindows, getElem?_allWindows, if_pos (by omega)]
  · have h1 : ¬ (windowCount s (tk.Encode text s.AllowedSpecial s.DisallowedSpecial).length - 1 + 1)
        * stepOf s < (tk.Encode text s.AllowedSpecial s.DisallowedSpecial).length := by
      rw [← lt_windowCount_iff hv]; omega
    rw [Nat.add_mul, Nat.one_mul] at h1
    simp only [windowAt]
    have e0 : ((windowCount s (tk.Encode text s.AllowedSpecial s.DisallowedSpecial).length - 1
        : Nat) : Int) * (stepOf s : Int)
        = (((windowCount s (tk.Encode text s.AllowedSpecial s.DisallowedSpecial).length - 1)
            * stepOf s : Nat) : Int) := by
      push_cast; ring
    rw [e0]
    generalize (windowCount s (tk.Encode text s.AllowedSpecial s.DisallowedSpecial).length - 1)
      * stepOf s = a at h1 ⊢
    omega
  · intro j hj
    have h1 : j / stepOf s * stepOf s ≤ j := Nat.div_mul_le_self j (stepOf s)
    have h2 : j < j / stepOf s * stepOf s + stepOf s := by
      have := Nat.lt_div_mul_add (a := j) hpos
      omega
    have hi : j / stepOf s
        < windowCount s (tk.Encode text s.AllowedSpecial s.DisallowedSpecial).length := by
      rw [lt_windowCount_iff hv]; omega
    refine ⟨_, windowAt_mem hi, ?_⟩
    simp only [windowAt]
    have e0 : ((j / stepOf s : Nat) : Int) * (stepOf s : Int)
        = ((j / stepOf s * stepOf s : Nat) : Int) := by
      push_cast; ring
    rw [e0]
    generalize j / stepOf s * stepOf s = a at h1 h2 ⊢
    refine ⟨by omega, by rw [lt_min_iff]; constructor <;> omega, ?_⟩
    rw [List.getElem?_drop, List.getElem?_take, if_pos (by omega)]
    congr 1
    omega

/-- C5 (amended) at ChunkSize 4, ChunkOverlap 1 and the 8 tokens of
"abcdefgh". -/
theorem C5_last_window_and_coverage_witness :
    ∃ run last, splitText ⟨4, 1, "m", "", [], []⟩ "abcdefgh" charTokenizer 8 = .ret run ∧
      run.splits = some (run.windows.map (fun w => charTokenizer.Decode w.chunkIds)) ∧
      run.windows.getLast? = some last ∧
      last.curIdx = ((8 : Nat) : Int) ∧
      (last.chunkIds.length : Int) ≤ 4 ∧
      ∀ j : Nat, j < 8 →
        ∃ w ∈ run.windows, w.startIdx ≤ (j : Int) ∧ (j : Int) < w.curIdx ∧
          w.chunkIds[j - w.startIdx.toNat]?
            = ([97, 98, 99, 100, 101, 102, 103, 104] : List Int)[j]? :=
  C5_last_window_and_coverage ⟨4, 1, "m", "", [], []⟩ "abcdefgh" charTokenizer 8
    [97, 98, 99, 100, 101, 102, 103, 104] (by decide) (by decide)
    (noOverflow_of_fits (by decide)) (by decide) (by decide)

/-! ### C8: termination of the windowing loop -/

/-- C8 (counterexample): ChunkSize one below the largest `int`, ChunkOverlap
one less again (a valid configuration with step 1) and the 3 tokens of "abc".
The loop runs two iterations, with `startIdx` 0 and 1; then `startIdx` is 2,
still below 3, the sum `2 + ChunkSize` has wrapped to the smallest `int`, and
the loop is left by the panic of `inputIds[2:MinInt64]`, not by
`startIdx >= N`.  A positive step alone does not help either: with ChunkSize
-1 and ChunkOverlap -3 (step 2) and one token the loop is left by the panic
of its first slice `inputIds[0:-1]`. -/
theorem C8_loop_exit_counterexample :
    (-1 : Int) - (-3) > 0 ∧
    splitLoop ⟨-1, -3, "m", "", [], []⟩ charTokenizer [97] 1 ⟨some [], 0, -1, []⟩ = .panic ∧
    splitText ⟨-1, -3, "m", "", [], []⟩ "a" charTokenizer 1 = .panic ∧
    Valid ⟨9223372036854775806, 9223372036854775805, "m", "", [], []⟩ ∧
    (charTokenizer.Encode "abc" [] []).length = 3 ∧
    splitLoop ⟨9223372036854775806, 9223372036854775805, "m", "", [], []⟩ charTokenizer
        [97, 98, 99] 2 ⟨some [], 0, 3, []⟩ = .outOfFuel ∧
    wrapInt (2 + 9223372036854775806) = -9223372036854775808 ∧
    splitLoop ⟨9223372036854775806, 9223372036854775805, "m", "", [], []⟩ charTokenizer
        [97, 98, 99] 3 ⟨some [], 0, 3, []⟩ = .panic ∧
    (∀ k : Nat,
      splitText ⟨9223372036854775806, 9223372036854775805, "m", "", [], []⟩ "abc" charTokenizer
        (k + 3) = .panic) :=
  ⟨by decide, by decide, by decide, by decide, by decide, by decide, by decide, by decide,
    fun _ => rfl⟩

/-- C8 (amended): for a valid configuration (`0 <= ChunkOverlap < ChunkSize`,
hence `ChunkSize - ChunkOverlap > 0`) and a token sequence of length
`N` such that no index sum of the loop overflows (every window start
`a = i * (ChunkSize - ChunkOverlap)` below `N` has `a + ChunkSize` within the
largest `int`), the windowing loop terminates: with fuel for `N` iterations
`splitText` returns (it neither runs out of fuel nor panics), it runs at most
`N` iterations, `startIdx` grows by `ChunkSize - ChunkOverlap > 0` from each
iteration to the next and is below `N` in each, and the loop stops at the
first multiple of the step that is `>= N`. -/
theorem C8_loop_terminates (s : TokenSplitter) (text : String) (tk : Tiktoken) (fuel : Nat)
    (inputIds : List Int)
    (hids : tk.Encode text s.AllowedSpecial s.DisallowedSpecial = inputIds)
    (hv : Valid s) (hr : NoOverflow s inputIds.length) (hfuel : inputIds.length ≤ fuel) :
    ∃ run, splitText s text tk fuel = .ret run ∧
      run.windows.length ≤ inputIds.length ∧
      (∀ (i : Nat) (w : Window), run.windows[i]? = some w →
        w.startIdx = (i : Int) * (s.ChunkSize - s.ChunkOverlap) ∧
        w.startIdx < (inputIds.length : Int)) ∧
      (∀ (i : Nat) (w w' : Window),
        run.windows[i]? = some w → run.windows[i + 1]? = some w' →
        w'.startIdx = w.startIdx + (s.ChunkSize - s.ChunkOverlap) ∧
        w.startIdx < w'.startIdx) ∧
      (inputIds.length : Int)
        ≤ (run.windows.length : Int) * (s.ChunkSize - s.ChunkOverlap) := by
  subst hids
  have hv' := hv
  unfold Valid at hv'
  refine ⟨_, splitText_valid_inRange s text tk fuel hv hr hfuel, ?_, ?_, ?_, ?_⟩
  · simp only [length_allWindows]
    exact windowCount_le hv _
  · intro i w hw
    obtain ⟨hi, rfl⟩ := mem_allWindows_getElem? hw
    rw [windowAt_startIdx hv]
    exact ⟨rfl, (lt_windowCount_iff_int hv _ i).1 hi⟩
  · intro i w w' hw hw'
    obtain ⟨_, rfl⟩ := mem_allWindows_getElem? hw
    obtain ⟨_, rfl⟩ := mem_allWindows_getElem? hw'
    rw [windowAt_startIdx hv, windowAt_startIdx hv]
    constructor
    · push_cast; ring
    · push_cast
      nlinarith
  · simp only [length_allWindows]
    have h := (lt_windowCount_iff_int hv
      (tk.Encode text s.AllowedSpecial s.DisallowedSpecial).length
      (windowCount s (tk.Encode text s.AllowedSpecial s.DisallowedSpecial).length)).not.1
      (lt_irrefl _)
    exact not_lt.1 h

/-- C8 (amended) at ChunkSize 4, ChunkOverlap 1 and the 8 tokens of
"abcdefgh". -/
theorem C8_loop_terminates_witness :
    ∃ run, splitText ⟨4, 1, "m", "", [], []⟩ "abcdefgh" charTokenizer 8 = .ret run ∧
      run.windows.length ≤ 8 ∧
      (∀ (i : Nat) (w : Window), run.windows[i]? = some w →
        w.startIdx = (i : Int) * (4 - 1) ∧ w.startIdx < ((8 : Nat) : Int)) ∧
      (∀ (i : Nat) (w w' : Window),
        run.windows[i]? = some w → run.windows[i + 1]? = some w' →
        w'.startIdx = w.startIdx + (4 - 1) ∧ w.startIdx < w'.startIdx) ∧
      ((8 : Nat) : Int) ≤ (run.windows.length : Int) * (4 - 1) :=
  C8_loop_terminates ⟨4, 1, "m", "", [], []⟩ "abcdefgh" charTokenizer 8
    [97, 98, 99, 100, 101, 102, 103, 104] (by decide) (by decide)
    (noOverflow_of_fits (by decide)) (by decide)

/-! ### C18: the number of chunks for any positive step -/

/-- C18 (counterexample): ChunkSize -1 and ChunkOverlap -3 give the positive
step 2, but on the one token of "a" the first window is `inputIds[0:-1]`
and `splitText` panics instead of returning `ceil(1 / 2) = 1` chunk.  And
with ChunkSize the largest `int`, ChunkOverlap one less (step 1) and the 4
tokens of "abcd", the sum `1 + ChunkSize` wraps, the second slice panics and
`splitText` returns none of the `ceil(4 / 1) = 4` chunks. -/
theorem C18_negative_size_counterexample :
    (-1 : Int) - (-3) > 0 ∧
    (charTokenizer.Encode "a" [] []).length = 1 ∧
    ceilDiv 1 ((-1) - (-3)) = 1 ∧
    splitText ⟨-1, -3, "m", "", [], []⟩ "a" charTokenizer 1 = .panic ∧
    splitText ⟨-1, -3, "m", "", [], []⟩ "a" charTokenizer 5 = .panic ∧
    (9223372036854775807 : Int) - 9223372036854775806 > 0 ∧
    (charTokenizer.Encode "abcd" [] []).length = 4 ∧
    ceilDiv 4 (9223372036854775807 - 9223372036854775806) = 4 ∧
    splitText ⟨9223372036854775807, 9223372036854775806, "m", "", [], []⟩ "abcd" charTokenizer 4
      = .panic := by
  decide

/-- C18 (amended): for `ChunkSize >= 0` and `ChunkSize - ChunkOverlap > 0`
and every token sequence of length `N >= 0` such that no index sum of the
loop overflows (every window start `a = i * (ChunkSize - ChunkOverlap)` below
`N` has `a + ChunkSize` and `a + (ChunkSize - ChunkOverlap)` within the
largest `int`), `splitText` returns exactly
`ceil(N / (ChunkSize - ChunkOverlap))` chunks, one per window start
`0, step, 2*step, ...` below `N`; so whenever the step is below `N` there is
more than one chunk, also when `N <= ChunkSize`. -/
theorem C18_count_for_positive_step (s : TokenSplitter) (text : String) (tk : Tiktoken)
    (fuel : Nat) (inputIds : List Int)
    (hids : tk.Encode text s.AllowedSpecial s.DisallowedSpecial = inputIds)
    (ha : Advancing s) (hr : NoOverflow s inputIds.length)
    (hr2 : StepNoOverflow s inputIds.length) (hfuel : inputIds.length ≤ fuel) :
    ∃ run, splitText s text tk fuel = .ret run ∧
      ((run.splits.len : Nat) : Int)
        = ceilDiv (inputIds.length : Int) (s.ChunkSize - s.ChunkOverlap) ∧
      run.splits.len = run.windows.length ∧
      (∀ (i : Nat) (w : Window), run.windows[i]? = some w →
        w.startIdx = (i : Int) * (s.ChunkSize - s.ChunkOverlap) ∧
        w.startIdx < (inputIds.length : Int)) ∧
      (∀ i : Nat, (i : Int) * (s.ChunkSize - s.ChunkOverlap) < (inputIds.length : Int) →
        i < run.windows.length) ∧
      (s.ChunkSize - s.ChunkOverlap < (inputIds.length : Int) → 1 < run.splits.len) := by
  subst hids
  have hpos := stepOf_pos_of_advancing ha
  have hcast := stepOf_cast_of_advancing ha
  have hfuel' := le_trans (windowCount_le_of_pos hpos _) hfuel
  have hiff : ∀ i : Nat,
      i < windowCount s (tk.Encode text s.AllowedSpecial s.DisallowedSpecial).length ↔
      (i : Int) * (s.ChunkSize - s.ChunkOverlap)
        < ((tk.Encode text s.AllowedSpecial s.DisallowedSpecial).length : Int) := by
    intro i
    rw [lt_windowCount_iff_of_pos hpos, ← hcast]
    norm_cast
  refine ⟨_, splitText_inRange s text tk fuel ha hr hr2 hfuel', ?_, ?_, ?_, ?_, ?_⟩
  · simp only [Slice.len, List.length_map, length_allWindows]
    exact windowCount_cast_of_advancing ha _
  · simp only [Slice.len, List.length_map]
  · intro i w hw
    obtain ⟨hi, rfl⟩ := mem_allWindows_getElem? hw
    have hst : (windowAt s (tk.Encode text s.AllowedSpecial s.DisallowedSpecial) i).startIdx
        = (i : Int) * (s.ChunkSize - s.ChunkOverlap) := by
      rw [← hcast]; rfl
    rw [hst]
    exact ⟨rfl, (hiff i).1 hi⟩
  · intro i hi
    rw [length_allWindows]
    exact (hiff i).2 hi
  · intro hlt
    simp only [Slice.len, List.length_map, length_allWindows]
    exact (hiff 1).2 (by simpa using hlt)

/-- C18 (amended) at ChunkSize 4, ChunkOverlap 2 and the 4 tokens of "abcd":
`N <= ChunkSize`, and there are 2 chunks. -/
theorem C18_count_for_positive_step_witness :
    ∃ run, splitText ⟨4, 2, "m", "", [], []⟩ "abcd" charTokenizer 4 = .ret run ∧
      ((run.splits.len : Nat) : Int) = ceilDiv ((4 : Nat) : Int) (4 - 2) ∧
      1 < run.splits.len :=
  have h := C18_count_for_positive_step ⟨4, 2, "m", "", [], []⟩ "abcd" charTokenizer 4
    [97, 98, 99, 100] (by decide) (by decide) (noOverflow_of_fits (by decide))
    (stepNoOverflow_of_valid (by decide) (noOverflow_of_fits (by decide))) (by decide)
  h.elim fun run hr => ⟨run, hr.1, hr.2.1, hr.2.2.2.2.2 (by decide)⟩

/-! ### C20: the slice is always in bounds -/

/-- C20 (counterexample): ChunkSize the largest `int`, ChunkOverlap one less
(a valid configuration with step 1) and the 3 tokens of "abc".  The first
slice is `inputIds[0:3]`; then `startIdx` is 1 and `curIdx` is
`1 + ChunkSize` wrapped to the smallest `int`, which is not above 3 and so
is kept: the second slice expression `inputIds[1:MinInt64]` has
`curIdx < startIdx`, is out of bounds and panics. -/
theorem C20_slice_counterexample :
    Valid ⟨9223372036854775807, 9223372036854775806, "m", "", [], []⟩ ∧
    (charTokenizer.Encode "abc" [] []).length = 3 ∧
    sliceExpr ([97, 98, 99] : List Int) 0 3 = some [97, 98, 99] ∧
    wrapInt (0 + wrapInt (9223372036854775807 - 9223372036854775806)) = 1 ∧
    wrapInt (1 + 9223372036854775807) = -9223372036854775808 ∧
    ¬ ((-9223372036854775808 : Int) > 3) ∧
    sliceExpr ([97, 98, 99] : List Int) 1 (-9223372036854775808) = none ∧
    splitLoop ⟨9223372036854775807, 9223372036854775806, "m", "", [], []⟩ charTokenizer
        [97, 98, 99] 1 ⟨some [], 0, 3, []⟩ = .outOfFuel ∧
    splitText ⟨9223372036854775807, 9223372036854775806, "m", "", [], []⟩ "abc" charTokenizer 3
      = .panic := by
  decide

/-- C20 (amended): for a valid configuration and a token sequence of length
`N` such that no index sum of the loop overflows (every window start
`a = i * (ChunkSize - ChunkOverlap)` below `N` has `a + ChunkSize` within the
largest `int`), `splitText` returns without a panic, and every window it
slices has `0 <= startIdx < curIdx <= N` at the slice expression
`inputIds[startIdx:curIdx]`: the slice is in bounds and holds at least one
token, so no chunk is decoded from an empty window. -/
theorem C20_slice_in_bounds (s : TokenSplitter) (text : String) (tk : Tiktoken) (fuel : Nat)
    (inputIds : List Int)
    (hids : tk.Encode text s.AllowedSpecial s.DisallowedSpecial = inputIds)
    (hv : Valid s) (hr : NoOverflow s inputIds.length) (hfuel : inputIds.length ≤ fuel) :
    ∃ run, splitText s text tk fuel = .ret run ∧
      ∀ w ∈ run.windows,
        0 ≤ w.startIdx ∧ w.startIdx < w.curIdx ∧ w.curIdx ≤ (inputIds.length : Int) ∧
        sliceExpr inputIds w.startIdx w.curIdx = some w.chunkIds ∧
        ((w.chunkIds.length : Nat) : Int) = w.curIdx - w.startIdx ∧
        w.chunkIds ≠ [] := by
  subst hids
  have hv' := hv
  unfold Valid at hv'
  refine ⟨_, splitText_valid_inRange s text tk fuel hv hr hfuel, ?_⟩
  intro w hw
  obtain ⟨i, hi, rfl⟩ := mem_allWindows hw
  have hlt := (lt_windowCount_iff hv _ i).1 hi
  have e0 : (i : Int) * (stepOf s : Int) = ((i * stepOf s : Nat) : Int) := by
    push_cast; ring
  have hb : 0 ≤ (windowAt s (tk.Encode text s.AllowedSpecial s.DisallowedSpecial) i).startIdx ∧
      (windowAt s (tk.Encode text s.AllowedSpecial s.DisallowedSpecial) i).startIdx
        < (windowAt s (tk.Encode text s.AllowedSpecial s.DisallowedSpecial) i).curIdx ∧
      (windowAt s (tk.Encode text s.AllowedSpecial s.DisallowedSpecial) i).curIdx
        ≤ ((tk.Encode text s.AllowedSpecial s.DisallowedSpecial).length : Int) := by
    simp only [windowAt]
    rw [e0]
    generalize i * stepOf s = a at hlt
    refine ⟨by omega, ?_, min_le_right _ _⟩
    rw [lt_min_iff]
    constructor <;> omega
  have hlen : (((windowAt s (tk.Encode text s.AllowedSpecial s.DisallowedSpecial) i).chunkIds.length
      : Nat) : Int)
      = (windowAt s (tk.Encode text s.AllowedSpecial s.DisallowedSpecial) i).curIdx
        - (windowAt s (tk.Encode text s.AllowedSpecial s.DisallowedSpecial) i).startIdx := by
    simp only [windowAt, List.length_drop, List.length_take]
    rw [e0]
    generalize i * stepOf s = a at hlt
    omega
  refine ⟨hb.1, hb.2.1, hb.2.2, ?_, hlen, ?_⟩
  · unfold sliceExpr
    rw [if_pos ⟨hb.1, le_of_lt hb.2.1, hb.2.2⟩]
    rfl
  · intro hnil
    rw [hnil] at hlen
    simp only [List.length_nil, Nat.cast_zero] at hlen
    omega

/-- C20 (amended) at ChunkSize 4, ChunkOverlap 1 and the 8 tokens of
"abcdefgh". -/
theorem C20_slice_in_bounds_witness :
    ∃ run, splitText ⟨4, 1, "m", "", [], []⟩ "abcdefgh" charTokenizer 8 = .ret run ∧
      ∀ w ∈ run.windows,
        0 ≤ w.startIdx ∧ w.startIdx < w.curIdx ∧ w.curIdx ≤ ((8 : Nat) : Int) ∧
        sliceExpr ([97, 98, 99, 100, 101, 102, 103, 104] : List Int) w.startIdx w.curIdx
          = some w.chunkIds ∧
        ((w.chunkIds.length : Nat) : Int) = w.curIdx - w.startIdx ∧
        w.chunkIds ≠ [] :=
  C20_slice_in_bounds ⟨4, 1, "m", "", [], []⟩ "abcdefgh" charTokenizer 8
    [97, 98, 99, 100, 101, 102, 103, 104] (by decide) (by decide)
    (noOverflow_of_fits (by decide)) (by decide)

/-! ### C15: which resolver is used -/

/-- C15: with a non-empty `ModelName`, `SplitText` is what it is with the
result of `EncodingForModel` on that model name as the tokenizer (its error
wrapped and returned, or `splitText` run with its tokenizer), and the outcome
is the same for every `EncodingName` and every `GetEncoding`; with an empty
`ModelName` and a non-empty `EncodingName`, `SplitText` is what it is with
the result of `GetEncoding` on that encoding name, whatever
`EncodingForModel` is. -/
theorem C15_resolver_choice (lib : TiktokenLib) (s : TokenSplitter) (text : String)
    (fuel : Nat) :
    (s.ModelName ≠ "" →
      SplitText lib s text fuel =
        (match lib.EncodingForModel s.ModelName with
          | .error err => .ret ⟨none, some ("tiktoken.GetEncoding: " ++ err), [], []⟩
          | .ok tk =>
            match splitText s text tk fuel with
            | .ret run => .ret ⟨run.splits, none, run.encoded, run.windows⟩
            | .panic => .panic
            | .outOfFuel => .outOfFuel) ∧
      (∀ name : String,
        SplitText lib { s with EncodingName := name } text fuel = SplitText lib s text fuel) ∧
      (∀ g : String → Except String Tiktoken,
        SplitText { lib with GetEncoding := g } s text fuel = SplitText lib s text fuel)) ∧
    (s.ModelName = "" → s.EncodingName ≠ "" →
      SplitText lib s text fuel =
        (match lib.GetEncoding s.EncodingName with
          | .error err => .ret ⟨none, some ("tiktoken.GetEncoding: " ++ err), [], []⟩
          | .ok tk =>
            match splitText s text tk fuel with
            | .ret run => .ret ⟨run.splits, none, run.encoded, run.windows⟩
            | .panic => .panic
            | .outOfFuel => .outOfFuel) ∧
      (∀ f : String → Except String Tiktoken,
        SplitText { lib with EncodingForModel := f } s text fuel = SplitText lib s text fuel)) := by
  constructor
  · intro hm
    refine ⟨?_, ?_, ?_⟩
    · simp only [SplitText, hm, ne_eq, not_false_eq_true, if_true]
    · intro name
      simp only [SplitText, hm, ne_eq, not_false_eq_true, if_true]
      cases lib.EncodingForModel s.ModelName with
      | error e => rfl
      | ok tk =>
        simp only
        rw [splitText_congr s { s with EncodingName := name } text tk fuel rfl rfl rfl rfl]
    · intro g
      simp only [SplitText, hm, ne_eq, not_false_eq_true, if_true]
  · intro hm he
    refine ⟨?_, ?_⟩
    · simp only [SplitText, hm, he, ne_eq, not_true_eq_false, not_false_eq_true, if_true,
        if_false]
    · intro f
      simp only [SplitText, hm, he, ne_eq, not_true_eq_false, not_false_eq_true, if_true,
        if_false]

/-- C15 at a library in which only the model name "m" resolves: a splitter
with the model name "m" splits whatever its encoding name is, and a splitter
with no model name and the encoding name "enc" gets the error of
`GetEncoding`. -/
theorem C15_resolver_choice_witness :
    SplitText
        { EncodingForModel := fun n => if n = "m" then .ok charTokenizer else .error "no model"
          GetEncoding := fun _ => .error "no encoding" }
        ⟨4, 2, "m", "enc", [], []⟩ "abcd" 4
      = .ret ⟨some ["abcd", "cd"], none, ["abcd"],
          [⟨0, 4, [97, 98, 99, 100]⟩, ⟨2, 4, [99, 100]⟩]⟩ ∧
    SplitText
        { EncodingForModel := fun n => if n = "m" then .ok charTokenizer else .error "no model"
          GetEncoding := fun _ => .error "no encoding" }
        ⟨4, 2, "", "enc", [], []⟩ "abcd" 4
      = .ret ⟨none, some ("tiktoken.GetEncoding: " ++ "no encoding"), [], []⟩ :=
  ⟨((C15_resolver_choice
        { EncodingForModel := fun n => if n = "m" then .ok charTokenizer else .error "no model"
          GetEncoding := fun _ => .error "no encoding" }
        ⟨4, 2, "m", "enc", [], []⟩ "abcd" 4).1 (by decide)).1.trans (by decide),
    ((C15_resolver_choice
        { EncodingForModel := fun n => if n = "m" then .ok charTokenizer else .error "no model"
          GetEncoding := fun _ => .error "no encoding" }
        ⟨4, 2, "", "enc", [], []⟩ "abcd" 4).2 rfl (by decide)).1.trans (by decide)⟩

end textsplitter
